import Mathlib

set_option maxHeartbeats 1000000

namespace TreasureHuntAgent

/-!
Shallow embedding of the `treasure_hunt_agent` package:
`game_tools.py` (sandboxed filesystem tools and control tools),
`treasure_hunt_game.py` (turn-based game loop), and
`treasure_hunt_generator.py` (procedural maze generator).

Paths are modelled as lists of components; the filesystem is modelled as a
flat list of directory paths plus an association list of file paths to
string contents.  Machine integers do not occur (token counts and depths
are unbounded in the source), so `Nat` is used directly.
-/

/-- Separator used by `ls` in the source: the file literally contains
`"\\n"`, i.e. the two-character sequence backslash-n (not a newline). -/
def lsSep : String := "\\n"

/-- A single slash, the path separator and directory suffix marker. -/
def slash : String := "/"

/-- The slash character. -/
def slashChar : Char := '/'

/-- The dot character. -/
def dotChar : Char := '.'

/-- A caller-supplied path string as parsed by `pathlib`/`os.path`:
`absolute` is the result of `os.path.isabs`, `comps` are the successive
path components (which may include the special names "." and ".."), and
`raw` is the original string, used only in error messages. -/
structure PathArg where
  absolute : Bool
  comps : List String
  raw : String
deriving DecidableEq

/-- Resolution of path components against an absolute directory, as
performed by `Path.resolve()`: "." is dropped, ".." removes the last
component (clamping at the filesystem root), anything else is appended. -/
def resolveComps : List String → List String → List String
  | acc, [] => acc
  | acc, c :: rest =>
    if c = "." then resolveComps acc rest
    else if c = ".." then resolveComps acc.dropLast rest
    else resolveComps (acc ++ [c]) rest

/-- A filesystem: the set of existing directories and an association list
from file paths to their text contents.  All paths are absolute,
represented as component lists. -/
structure Fs where
  dirs : List (List String)
  files : List (List String × String)
deriving DecidableEq

/-- Whether `p` is an existing directory. -/
def Fs.isDir (fs : Fs) (p : List String) : Bool :=
  fs.dirs.contains p

/-- Contents of the file at `p`, when a file exists there. -/
def Fs.readFile (fs : Fs) (p : List String) : Option String :=
  fs.files.lookup p

/-- Whether `p` is an existing file. -/
def Fs.isFile (fs : Fs) (p : List String) : Bool :=
  (fs.readFile p).isSome

/-- Whether some filesystem node exists at `p` (`Path.exists`). -/
def Fs.nodeAt (fs : Fs) (p : List String) : Bool :=
  fs.isDir p || fs.isFile p

/-- Names of the children of directory `p`, without duplicates. -/
def Fs.childNames (fs : Fs) (p : List String) : List String :=
  let fromDirs := fs.dirs.filterMap fun d =>
    if d.length = p.length + 1 ∧ p.isPrefixOf d then d.getLast? else none
  let fromFiles := fs.files.filterMap fun e =>
    if e.1.length = p.length + 1 ∧ p.isPrefixOf e.1 then e.1.getLast? else none
  (fromDirs ++ fromFiles).eraseDups

/-- Lexicographic comparison of character lists by code point, the order
Python string comparison uses. -/
def charLeb : List Char → List Char → Bool
  | [], _ => true
  | _ :: _, [] => false
  | a :: as, b :: bs => if a < b then true else if b < a then false else charLeb as bs

/-- Python string comparison, used by `sorted`. -/
def strLeb (a b : String) : Bool :=
  charLeb a.data b.data

/-- Stable insertion of a string into a sorted list. -/
def insertSorted (a : String) : List String → List String
  | [] => [a]
  | b :: rest => if strLeb b a then b :: insertSorted a rest else a :: b :: rest

/-- The deterministic sort applied by `sorted` to directory entries. -/
def sortStrings : List String → List String
  | [] => []
  | a :: rest => insertSorted a (sortStrings rest)

/-- Mutable game state shared by all tools (class `GameState` in
`treasure_hunt_game.py`; the subset of fields used by the tools and the
loop — `start_time` is wall-clock and not modelled). -/
structure GameState where
  treasure_hunt_root : List String
  current_dir : List String
  turn_number : Nat
  max_turns : Nat
  max_tokens : Nat
  tokens_used : Nat
  prompt_tokens_used : Nat
  completion_tokens_used : Nat
  treasure_key : String
  start_file : String
  game_over : Bool
  success : Option Bool
deriving DecidableEq

/-- Error message for absolute paths (`_validate_path`). -/
def errAbsolute : String := "Error: Absolute paths are not allowed"

/-- Error message for paths escaping the hunt root (`_validate_path`). -/
def errOutside : String := "Error: Path is outside treasure hunt boundary"

/-- Error message for missing paths (`_validate_path`). -/
def errNotExist (raw : String) : String :=
  "Error: Path does not exist: " ++ raw

/-- Error message when a file was required but a directory found
(`_validate_path`). -/
def errIsDir (raw : String) : String :=
  "Error: Path is a directory, not a file: " ++ raw

/-- Error message when a directory was required (`ls` and `cd`). -/
def errNotDir (raw : String) : String :=
  "Error: Not a directory: " ++ raw

/-- The word all error strings start with. -/
def errWord : String := "Error"

/-- Whether a tool result string is an error message: all sandbox error
strings begin with the word "Error". -/
def isErrorMsg (s : String) : Bool :=
  s.data.take 5 == errWord.data

/-- Embedding of `_validate_path`: reject absolute paths, resolve against
`current_dir`, reject resolutions outside `treasure_hunt_root`, then
optionally require existence and being a plain file. -/
def validate_path (fs : Fs) (state : GameState) (path : PathArg)
    (must_exist : Bool) (must_be_file : Bool) : Except String (List String) :=
  if path.absolute then .error errAbsolute
  else
    let resolved := resolveComps state.current_dir path.comps
    if ¬ state.treasure_hunt_root.isPrefixOf resolved then .error errOutside
    else if must_exist ∧ ¬ fs.nodeAt resolved then .error (errNotExist path.raw)
    else if must_be_file ∧ fs.nodeAt resolved ∧ ¬ fs.isFile resolved then
      .error (errIsDir path.raw)
    else .ok resolved

/-- The sentinel returned by `ls` for an empty directory. -/
def emptyDirMsg : String := "(empty directory)"

/-- Embedding of `ls`: validate, require a directory, then return the
sorted entry names (directories suffixed with "/") joined with `lsSep`,
or the empty-directory sentinel.  The state is returned unchanged, as the
source never assigns to it. -/
def ls (fs : Fs) (state : GameState) (path : PathArg) : String × GameState :=
  match validate_path fs state path true false with
  | .error e => (e, state)
  | .ok resolved =>
    if ¬ fs.isDir resolved then (errNotDir path.raw, state)
    else
      let names := sortStrings (fs.childNames resolved)
      let items := names.map fun n =>
        if fs.isDir (resolved ++ [n]) then n ++ slash else n
      if items = [] then (emptyDirMsg, state)
      else (String.intercalate lsSep items, state)

/-- Confirmation when `cd` lands back on the hunt root. -/
def msgCdRoot : String := "Changed directory to: / (hunt root)"

/-- Confirmation prefix for `cd`. -/
def msgCdPre : String := "Changed directory to: "

/-- Rendering of a path relative to a prefix, as `Path.relative_to`
prints it. -/
def renderRel (p root : List String) : String :=
  String.intercalate slash (p.drop root.length)

/-- Embedding of `cd`: validate, require a directory, then update
`current_dir` and confirm; on any failure the state is unchanged. -/
def cd (fs : Fs) (state : GameState) (path : PathArg) : String × GameState :=
  match validate_path fs state path true false with
  | .error e => (e, state)
  | .ok resolved =>
    if ¬ fs.isDir resolved then (errNotDir path.raw, state)
    else
      let state' := { state with current_dir := resolved }
      if resolved = state.treasure_hunt_root then (msgCdRoot, state')
      else (msgCdPre ++ renderRel resolved state.treasure_hunt_root, state')

/-- Embedding of `cat`: validate requiring an existing plain file, then
return its contents.  The fallthrough branch is unreachable after
validation. -/
def cat (fs : Fs) (state : GameState) (file_path : PathArg) : String × GameState :=
  match validate_path fs state file_path true true with
  | .error e => (e, state)
  | .ok resolved =>
    match fs.readFile resolved with
    | some content => (content, state)
    | none => (errNotExist file_path.raw, state)

/-- Embedding of `pwd`: the current directory relative to the hunt root,
the root itself reported as "/". -/
def pwd (state : GameState) : String :=
  if state.treasure_hunt_root.isPrefixOf state.current_dir then
    if state.current_dir = state.treasure_hunt_root then slash
    else renderRel state.current_dir state.treasure_hunt_root
  else "Error: Current directory is outside hunt root"

/-- Result dictionary of `check_treasure`. -/
structure CheckResult where
  correct : Bool
  message : String
deriving DecidableEq

/-- Message for a correct key. -/
def msgCorrect : String := "Correct! You found the treasure!"

/-- Message for an incorrect key. -/
def msgIncorrect : String := "Incorrect key. Keep searching!"

/-- Embedding of `check_treasure`: compare the key with
`state.treasure_key`; on a match set `game_over` and `success`, otherwise
leave the state untouched. -/
def check_treasure (state : GameState) (key : String) : CheckResult × GameState :=
  if key = state.treasure_key then
    ({ correct := true, message := msgCorrect },
     { state with game_over := true, success := some true })
  else
    ({ correct := false, message := msgIncorrect }, state)

/-- Message returned by `give_up`. -/
def msgGaveUp : String := "Game ended. Agent gave up."

/-- Embedding of `give_up`: unconditionally end the game as a failure. -/
def give_up (state : GameState) : String × GameState :=
  (msgGaveUp, { state with game_over := true, success := some false })

/-- Prefix of the `ask_human` placeholder response. -/
def askHumanPre : String := "[Human input needed] Question: "

/-- Embedding of `ask_human`: a side-effect-free placeholder echoing the
question. -/
def ask_human (_state : GameState) (question : String) : String :=
  askHumanPre ++ question

/-!
Game loop (`treasure_hunt_game.py`).  Tool calls are dispatched by name;
arguments are modelled by a small sum covering the argument shapes the
seven tools accept.  A call whose arguments do not fit the named tool
raises a `TypeError` in Python, which `_execute_tools` catches and turns
into an inline error string.
-/

/-- Argument payload of a requested tool call. -/
inductive ToolArgs where
  | pathArgs (path : PathArg)
  | keyArgs (key : String)
  | questionArgs (question : String)
  | noArgs
deriving DecidableEq

/-- A tool call requested by the agent (`ToolCall` in `gemini_agent.py`). -/
structure ToolCall where
  id : String
  name : String
  args : ToolArgs
deriving DecidableEq

/-- Value placed in a tool result and in the call log: `check_treasure`
and `give_up` return dictionaries, every other tool returns a string. -/
inductive ToolResultVal where
  | text (s : String)
  | checkRes (r : CheckResult)
  | giveUpRes (message : String)
deriving DecidableEq

/-- Result of one tool execution (`ToolResult`). -/
structure ToolResult where
  tool_call_id : String
  name : String
  result : ToolResultVal
deriving DecidableEq

/-- One entry of the permanent call log kept by `_execute_tools`. -/
structure LogEntry where
  turn : Nat
  name : String
  arguments : ToolArgs
  result : ToolResultVal
deriving DecidableEq

/-- Tool names as used by the dispatch table. -/
def nameLs : String := "ls"

/-- Name of the `cd` tool. -/
def nameCd : String := "cd"

/-- Name of the `cat` tool. -/
def nameCat : String := "cat"

/-- Name of the `pwd` tool. -/
def namePwd : String := "pwd"

/-- Name of the `check_treasure` tool. -/
def nameCheck : String := "check_treasure"

/-- Name of the `give_up` tool. -/
def nameGiveUp : String := "give_up"

/-- Name of the `ask_human` tool. -/
def nameAskHuman : String := "ask_human"

/-- Error string for an unknown tool name. -/
def errUnknownTool (n : String) : String :=
  "Error: Unknown tool: " ++ n

/-- Error string produced when a tool raises (here: argument mismatch,
Python `TypeError` caught by `_execute_tools`). -/
def errExecuting (n : String) : String :=
  "Error executing " ++ n ++ ": bad arguments"

/-- The default path "." substituted for a missing `ls` argument. -/
def dotPath : PathArg := { absolute := false, comps := ["."], raw := "." }

/-- Dispatch and execute a single tool call against the game state,
following the name-to-function table of `TreasureHuntGame`. -/
def executeToolCall (fs : Fs) (st : GameState) (c : ToolCall) :
    ToolResultVal × GameState :=
  if c.name = nameLs then
    match c.args with
    | .pathArgs p => let r := ls fs st p; (.text r.1, r.2)
    | .noArgs => let r := ls fs st dotPath; (.text r.1, r.2)
    | _ => (.text (errExecuting c.name), st)
  else if c.name = nameCd then
    match c.args with
    | .pathArgs p => let r := cd fs st p; (.text r.1, r.2)
    | _ => (.text (errExecuting c.name), st)
  else if c.name = nameCat then
    match c.args with
    | .pathArgs p => let r := cat fs st p; (.text r.1, r.2)
    | _ => (.text (errExecuting c.name), st)
  else if c.name = namePwd then
    match c.args with
    | .noArgs => (.text (pwd st), st)
    | _ => (.text (errExecuting c.name), st)
  else if c.name = nameCheck then
    match c.args with
    | .keyArgs k => let r := check_treasure st k; (.checkRes r.1, r.2)
    | _ => (.text (errExecuting c.name), st)
  else if c.name = nameGiveUp then
    match c.args with
    | .noArgs => let r := give_up st; (.giveUpRes r.1, r.2)
    | _ => (.text (errExecuting c.name), st)
  else if c.name = nameAskHuman then
    match c.args with
    | .questionArgs q => (.text (ask_human st q), st)
    | _ => (.text (errExecuting c.name), st)
  else
    (.text (errUnknownTool c.name), st)

/-- Embedding of `TreasureHuntGame._execute_tools`: execute the batch
sequentially, logging each executed call; after a `check_treasure` or
`give_up` call that left `game_over` set, drop the remaining calls. -/
def executeTools (fs : Fs) (st : GameState) (log : List LogEntry) :
    List ToolCall → List ToolResult × GameState × List LogEntry
  | [] => ([], st, log)
  | c :: rest =>
    let out := executeToolCall fs st c
    let entry : LogEntry :=
      { turn := st.turn_number, name := c.name, arguments := c.args,
        result := out.1 }
    let tr : ToolResult :=
      { tool_call_id := c.id, name := c.name, result := out.1 }
    if (c.name = nameCheck ∨ c.name = nameGiveUp) ∧ out.2.game_over then
      ([tr], out.2, log ++ [entry])
    else
      let next := executeTools fs out.2 (log ++ [entry]) rest
      (tr :: next.1, next.2.1, next.2.2)

/-- State threaded through sequential execution of a batch prefix. -/
def batchState (fs : Fs) : GameState → List ToolCall → GameState
  | st, [] => st
  | st, c :: rest => batchState fs (executeToolCall fs st c).2 rest

/-- Log entries appended by sequential execution of a batch prefix. -/
def batchEntries (fs : Fs) : GameState → List ToolCall → List LogEntry
  | _, [] => []
  | st, c :: rest =>
    { turn := st.turn_number, name := c.name, arguments := c.args,
      result := (executeToolCall fs st c).1 } ::
      batchEntries fs (executeToolCall fs st c).2 rest

/-- Tool results produced by sequential execution of a batch prefix. -/
def batchResults (fs : Fs) : GameState → List ToolCall → List ToolResult
  | _, [] => []
  | st, c :: rest =>
    { tool_call_id := c.id, name := c.name,
      result := (executeToolCall fs st c).1 } ::
      batchResults fs (executeToolCall fs st c).2 rest

/-- No call of the batch prefix triggers the early-stop condition of
`_execute_tools` (a `check_treasure` or `give_up` that set
`game_over`). -/
def noStopBatch (fs : Fs) : GameState → List ToolCall → Prop
  | _, [] => True
  | st, c :: rest =>
    ¬ ((c.name = nameCheck ∨ c.name = nameGiveUp) ∧
        (executeToolCall fs st c).2.game_over = true) ∧
      noStopBatch fs (executeToolCall fs st c).2 rest

/-- Token usage reported by the agent for one step. -/
structure AgentUsage where
  prompt_tokens : Nat
  completion_tokens : Nat
  total_tokens : Nat
deriving DecidableEq

/-- Response bundle returned by one agent step (`AgentResponse`); an
absent tool-call list is modelled as the empty list. -/
structure AgentResponse where
  tool_calls : List ToolCall
  usage : AgentUsage
deriving DecidableEq

/-- Outcome of invoking the agent collaborator once: either a response or
a raised exception carrying its message. -/
inductive AgentStep where
  | fail (msg : String)
  | respond (r : AgentResponse)
deriving DecidableEq

/-- Input handed to the agent on a turn: either an instruction string or
the previous tool results. -/
inductive GameInput where
  | text (s : String)
  | results (rs : List ToolResult)
deriving DecidableEq

/-- The agent collaborator, as the loop sees it: a response for each turn
number and input. -/
def Agent : Type := Nat → GameInput → AgentStep

/-- Final result of a hunt (`GameResult`; `total_time` is wall-clock and
not modelled). -/
structure GameResult where
  success : Bool
  turns_taken : Nat
  treasure_key_found : Option String
  total_tokens : Nat
  prompt_tokens : Nat
  completion_tokens : Nat
  tool_calls : List LogEntry
  final_state : GameState
  end_reason : String
  error : Option String
deriving DecidableEq

/-- Termination reason codes. -/
def reasonError : String := "error"

/-- Reason code for token-budget exhaustion. -/
def reasonMaxTokens : String := "max_tokens"

/-- Reason code for turn-budget exhaustion. -/
def reasonMaxTurns : String := "max_turns"

/-- Reason code for a correct key. -/
def reasonTreasureFound : String := "treasure_found"

/-- Reason code for an explicit give-up. -/
def reasonGaveUp : String := "gave_up"

/-- Defensive reason code when no tracked condition explains the exit. -/
def reasonUnknown : String := "unknown"

/-- Prefix attached by the loop to an agent exception message. -/
def agentErrorPre : String := "Agent error: "

/-- Key reported in the result: the first `check_treasure` entry of the
call log, if any (`_end_game`). -/
def findCheckKey : List LogEntry → Option String
  | [] => none
  | e :: rest =>
    if e.name = nameCheck then
      match e.arguments with
      | .keyArgs k => some k
      | _ => none
    else findCheckKey rest

/-- Embedding of `TreasureHuntGame._end_game`. -/
def endGame (st : GameState) (log : List LogEntry) (success : Bool)
    (end_reason : String) (error : Option String) : GameResult :=
  { success := success, turns_taken := st.turn_number,
    treasure_key_found := findCheckKey log,
    total_tokens := st.tokens_used,
    prompt_tokens := st.prompt_tokens_used,
    completion_tokens := st.completion_tokens_used,
    tool_calls := log, final_state := st,
    end_reason := end_reason, error := error }

/-- Result assembly after the while loop exits without an early return. -/
def loopExit (st : GameState) (log : List LogEntry) : GameResult :=
  endGame st log false
    (if st.max_turns ≤ st.turn_number then reasonMaxTurns
     else if st.max_tokens ≤ st.tokens_used then reasonMaxTokens
     else reasonUnknown) none

/-- Turn-number increment at the head of each loop iteration. -/
def bumpTurn (st : GameState) : GameState :=
  { st with turn_number := st.turn_number + 1 }

/-- Token accounting after an agent step. -/
def addUsage (st : GameState) (u : AgentUsage) : GameState :=
  { st with tokens_used := st.tokens_used + u.total_tokens,
            prompt_tokens_used := st.prompt_tokens_used + u.prompt_tokens,
            completion_tokens_used := st.completion_tokens_used + u.completion_tokens }

/-- Corrective instruction substituted when a turn produced no tool
calls. -/
def noToolsMsg : String :=
  "No tools were called. Please use your tools to explore."

/-- Embedding of the `while` loop body of `TreasureHuntGame.run`.  The
loop guard is exactly the source condition; `fuel` only bounds the
recursion and is chosen large enough by `run` (the guard fails before
fuel runs out, because `turn_number` grows every iteration). -/
def runLoop (fs : Fs) (agent : Agent) :
    Nat → GameState → List LogEntry → GameInput → GameResult
  | 0, st, log, _ => loopExit st log
  | fuel + 1, st, log, input =>
    if st.game_over = true ∨ st.max_turns ≤ st.turn_number ∨
        st.max_tokens ≤ st.tokens_used then
      loopExit st log
    else
      match agent (bumpTurn st).turn_number input with
      | .fail msg =>
        endGame (bumpTurn st) log false reasonError (some (agentErrorPre ++ msg))
      | .respond resp =>
        if (addUsage (bumpTurn st) resp.usage).max_tokens ≤
            (addUsage (bumpTurn st) resp.usage).tokens_used then
          endGame (addUsage (bumpTurn st) resp.usage) log false reasonMaxTokens none
        else if resp.tool_calls = [] then
          runLoop fs agent fuel (addUsage (bumpTurn st) resp.usage) log
            (.text noToolsMsg)
        else
          match executeTools fs (addUsage (bumpTurn st) resp.usage) log
              resp.tool_calls with
          | (results, st2, log2) =>
            if st2.game_over = true then
              endGame st2 log2 (st2.success.getD false)
                (if st2.success.getD false then reasonTreasureFound
                 else reasonGaveUp) none
            else
              runLoop fs agent fuel st2 log2 (.results results)

/-- Initial instruction composed by `run`. -/
def initialMessage (start_file : String) : String :=
  "You are at the root of a treasure hunt. The starting file is " ++
  start_file ++ ". Use your tools to navigate the filesystem and find " ++
  "the treasure key. When you think you have the key, use check_treasure to verify it."

/-- Embedding of `TreasureHuntGame.run`. -/
def run (fs : Fs) (agent : Agent) (st : GameState) : GameResult :=
  runLoop fs agent (st.max_turns + 1 - st.turn_number) st []
    (.text (initialMessage st.start_file))

/-!
Generator (`treasure_hunt_generator.py`).  The `random` module is
modelled as a stream of naturals consumed one draw per primitive request;
`random.seed(seed)` replaces the ambient stream by a stream computed from
the seed.  Probabilities are scaled to parts per million.  Python `set`
iteration order (used when red-herring names are spliced into a level) is
hash-dependent; it enters the model as the `hashOrder` parameter.  The
two unbounded `while` loops of the source (distinct treasure filename,
unique red-herring names) take explicit fuel.
-/

/-- A pseudo-random stream with a position. -/
structure Rng where
  stream : Nat → Nat
  pos : Nat

/-- Draw one natural from the stream. -/
def Rng.next (r : Rng) : Nat × Rng :=
  (r.stream r.pos, { r with pos := r.pos + 1 })

/-- One step of a linear congruential generator, standing in for the
Mersenne Twister as the concrete seeded stream. -/
def lcgNext (x : Nat) : Nat :=
  (1103515245 * x + 12345) % 2147483648

/-- The seeded stream: `random.seed(seed)` determines all later draws. -/
def lcgStream (seed : Nat) : Nat → Nat
  | 0 => lcgNext (seed + 1)
  | n + 1 => lcgNext (lcgStream seed n)

/-- The generator state right after `random.seed(seed)`. -/
def seedRng (seed : Nat) : Rng :=
  { stream := lcgStream seed, pos := 0 }

/-- Scale denominator for `random.random()` comparisons. -/
def densityDenom : Nat := 1000000

/-- Threshold for `random.random() < 0.5`. -/
def prob50 : Nat := 500000

/-- Threshold for `random.random() < 0.3`. -/
def prob30 : Nat := 300000

/-- Threshold for `random.random() < 0.4`. -/
def prob40 : Nat := 400000

/-- Model of `random.random()`, scaled to `[0, densityDenom)`. -/
def randUnit (r : Rng) : Nat × Rng :=
  let n := r.next
  (n.1 % densityDenom, n.2)

/-- Model of `random.randint(lo, hi)`: `none` models the `ValueError`
raised when the range is empty. -/
def randint (lo hi : Nat) (r : Rng) : Option (Nat × Rng) :=
  if hi < lo then none
  else
    let n := r.next
    some (lo + n.1 % (hi + 1 - lo), n.2)

/-- Model of `random.choice` over a word list. -/
def chooseWord (wl : List String) (r : Rng) : String × Rng :=
  let n := r.next
  (wl.getD (n.1 % wl.length) "", n.2)

/-- Embedding of `_random_dirname`. -/
def random_dirname (wl : List String) (r : Rng) : String × Rng :=
  chooseWord wl r

/-- The ".txt" filename suffix. -/
def txtExt : String := ".txt"

/-- Embedding of `_random_filename`. -/
def random_filename (wl : List String) (r : Rng) : String × Rng :=
  let w := chooseWord wl r
  (w.1 ++ txtExt, w.2)

/-- The key alphabet `string.ascii_letters + string.digits`. -/
def keyAlphabet : List Char :=
  ((List.range 26).map fun i => Char.ofNat (97 + i)) ++
  ((List.range 26).map fun i => Char.ofNat (65 + i)) ++
  ((List.range 10).map fun i => Char.ofNat (48 + i))

/-- Embedding of `_generate_key` with `use_seed=True` (the call made by
`generate_treasure_hunt`): the key is drawn from the seeded stream. -/
def generate_key : Nat → Rng → String × Rng
  | 0, r => ("", r)
  | n + 1, r =>
    let d := r.next
    let c := keyAlphabet.getD (d.1 % keyAlphabet.length) 'a'
    let rest := generate_key n d.2
    (String.mk (c :: rest.1.data), rest.2)

/-- The `while treasure_filename == start_filename` redraw loop, with
fuel for the unbounded source loop. -/
def distinctFilename (wl : List String) (start : String) :
    Nat → String → Rng → String × Rng
  | 0, t, r => (t, r)
  | fuel + 1, t, r =>
    if t = start then
      let d := random_filename wl r
      distinctFilename wl start fuel d.1 d.2
    else (t, r)

/-- Embedding of `_generate_golden_path`: the correct directory name of
each level. -/
def generate_golden_path (wl : List String) : Nat → Rng → List String × Rng
  | 0, r => ([], r)
  | n + 1, r =>
    let d := random_dirname wl r
    let rest := generate_golden_path wl n d.2
    (d.1 :: rest.1, rest.2)

/-- The `while len(red_herrings) < num_red_herrings` collection loop:
draw names, adding one when it differs from the correct name and is not
already present (Python set semantics), with fuel for the unbounded
source loop.  Returns names in insertion order. -/
def pickUniqueNames (wl : List String) (correct : String) (need : Nat) :
    Nat → List String → Rng → List String × Rng
  | 0, acc, r => (acc, r)
  | fuel + 1, acc, r =>
    if acc.length < need then
      let d := random_dirname wl r
      if d.1 ≠ correct ∧ ¬ acc.contains d.1 then
        pickUniqueNames wl correct need fuel (acc ++ [d.1]) d.2
      else
        pickUniqueNames wl correct need fuel acc d.2
    else (acc, r)

/-- The dead-end red-herring message. -/
def deadEndMsg : String := "# Dead end - try another path"

/-- The "../" prefix. -/
def dotdotSlash : String := "../"

/-- The "./" prefix. -/
def dotSlash : String := "./"

/-- Embedding of `_write_red_herring_clue`: one misleading clue file
written inside `directory`. -/
def write_red_herring_clue (wl : List String) (directory : List String)
    (r : Rng) : (List String × String) × Rng :=
  let f := random_filename wl r
  let clue_filename := f.1
  let ch := (randint 0 2 f.2).getD (0, f.2)
  if ch.1 = 0 then
    let d := random_dirname wl ch.2
    let g := random_filename wl d.2
    ((directory ++ [clue_filename], dotdotSlash ++ d.1 ++ slash ++ g.1), g.2)
  else if ch.1 = 1 then
    ((directory ++ [clue_filename], deadEndMsg), ch.2)
  else
    let d := random_dirname wl ch.2
    let g := random_filename wl d.2
    ((directory ++ [clue_filename], dotSlash ++ d.1 ++ slash ++ g.1), g.2)

/-- Directories created and files written by tree building, in creation
order; paths are relative to the hunt base. -/
structure TreeOut where
  dirs : List (List String)
  writes : List (List String × String)
deriving DecidableEq

/-- The empty tree output. -/
def emptyTree : TreeOut := { dirs := [], writes := [] }

/-- Concatenation of tree outputs. -/
def TreeOut.append (a b : TreeOut) : TreeOut :=
  { dirs := a.dirs ++ b.dirs, writes := a.writes ++ b.writes }

/-- Loop body of `_build_red_herring_subtree` over its children
(`for _ in range(num_children)`); `recurse` is the subtree builder at the
remaining fuel. -/
def rhChildren (wl : List String) (file_density max_depth : Nat)
    (recurse : Nat → List String → Rng → TreeOut × Rng) :
    Nat → Nat → List String → Rng → TreeOut × Rng
  | 0, _, _, r => (emptyTree, r)
  | count + 1, current_depth, pre, r =>
    let d := random_dirname wl r
    let dir_path := pre ++ [d.1]
    let p1 := randUnit d.2
    let clue :=
      if p1.1 < file_density ∧ current_depth + 1 < max_depth then
        let w := write_red_herring_clue wl dir_path p1.2
        (([w.1] : List (List String × String)), w.2)
      else ([], p1.2)
    let p2 := randUnit clue.2
    let sub :=
      if p2.1 < prob40 then recurse (current_depth + 1) dir_path p2.2
      else (emptyTree, p2.2)
    let rest := rhChildren wl file_density max_depth recurse
      count current_depth pre sub.2
    ({ dirs := [dir_path] ++ sub.1.dirs ++ rest.1.dirs,
       writes := clue.1 ++ sub.1.writes ++ rest.1.writes }, rest.2)

/-- Embedding of `_build_red_herring_subtree`: stop at the depth ceiling
or with probability 0.3, otherwise create up to `branching_factor`
children through `rhChildren`.  `fuel` bounds nesting; the depth guard
stops the recursion first whenever `fuel ≥ max_depth - current_depth`. -/
def build_red_herring_subtree (wl : List String)
    (branching_factor file_density max_depth : Nat) :
    Nat → Nat → List String → Rng → TreeOut × Rng
  | 0, _, _, r => (emptyTree, r)
  | fuel + 1, current_depth, pre, r =>
    if max_depth ≤ current_depth then (emptyTree, r)
    else
      let p := randUnit r
      if p.1 < prob30 then (emptyTree, p.2)
      else
        let nc := (randint 0 branching_factor p.2).getD (0, p.2)
        rhChildren wl file_density max_depth
          (build_red_herring_subtree wl branching_factor file_density max_depth fuel)
          nc.1 current_depth pre nc.2

/-- Loop of `_build_tree` over the names of one golden level
(`for dirname in golden_path[path_index]`); `goldenRec` continues the
golden path one level deeper. -/
def levelLoop (wl : List String) (branching_factor file_density max_depth : Nat)
    (correct : String) (goldenRec : Nat → List String → Rng → TreeOut × Rng) :
    List String → Nat → List String → Rng → TreeOut × Rng
  | [], _, _, r => (emptyTree, r)
  | dirname :: names, current_depth, pre, r =>
    let dir_path := pre ++ [dirname]
    let sub :=
      if dirname = correct then goldenRec (current_depth + 1) dir_path r
      else
        let p := randUnit r
        if p.1 < prob50 ∧ current_depth + 1 < max_depth then
          build_red_herring_subtree wl branching_factor file_density max_depth
            max_depth (current_depth + 1) dir_path p.2
        else (emptyTree, p.2)
    let clue :=
      if dirname ≠ correct then
        let p := randUnit sub.2
        if p.1 < file_density then
          if current_depth + 1 < max_depth then
            let w := write_red_herring_clue wl dir_path p.2
            (([w.1] : List (List String × String)), w.2)
          else ([], p.2)
        else ([], p.2)
      else ([], sub.2)
    let rest := levelLoop wl branching_factor file_density max_depth correct
      goldenRec names current_depth pre clue.2
    ({ dirs := [dir_path] ++ sub.1.dirs ++ rest.1.dirs,
       writes := sub.1.writes ++ clue.1 ++ rest.1.writes }, rest.2)

/-- Embedding of `_build_tree`: along the golden path, materialize the
correct directory plus uniquely named red-herring siblings (spliced in
set-iteration order `hashOrder`), each red herring possibly growing a
dead-end subtree and possibly receiving a misleading clue.  Below the end
of the golden path the source does nothing. -/
def build_tree (wl : List String) (hashOrder : List String → List String)
    (branching_factor file_density max_depth uniqFuel : Nat) :
    List String → Nat → List String → Rng → TreeOut × Rng
  | [], _, _, r => (emptyTree, r)
  | correct :: goldenRest, current_depth, pre, r =>
    if max_depth ≤ current_depth then (emptyTree, r)
    else
      let nr := (randint (branching_factor - 1) (branching_factor + 1) r).getD (0, r)
      let rh := pickUniqueNames wl correct nr.1 uniqFuel [] nr.2
      levelLoop wl branching_factor file_density max_depth correct
        (build_tree wl hashOrder branching_factor file_density max_depth uniqFuel
          goldenRest)
        (correct :: hashOrder rh.1) current_depth pre rh.2

/-- The clue filenames drawn before the golden-path write loop. -/
def drawFilenames (wl : List String) : Nat → Rng → List String × Rng
  | 0, r => ([], r)
  | n + 1, r =>
    let f := random_filename wl r
    let rest := drawFilenames wl n f.2
    (f.1 :: rest.1, rest.2)

/-- The `for i, dirname in enumerate(path_dirs)` loop of
`_write_clue_files`: each intermediate clue names the next directory and
clue, the last clue names the treasure file, and the treasure file gets
the key. -/
def clueLoop (treasure_key treasure_filename : String) :
    List String → List String → List String → List (List String × String)
  | [d], [c], cur =>
    [(cur ++ [d, c], treasure_filename), (cur ++ [d, treasure_filename], treasure_key)]
  | d :: d2 :: ds, c :: c2 :: cs, cur =>
    (cur ++ [d, c], d2 ++ slash ++ c2) ::
      clueLoop treasure_key treasure_filename (d2 :: ds) (c2 :: cs) (cur ++ [d])
  | _, _, _ => []

/-- Output of `_write_clue_files`: the ordered file writes, the rendered
treasure path, and (for auditing) its component form and the drawn clue
filenames. -/
structure ClueOut where
  writes : List (List String × String)
  treasure_file : String
  treasure_path : List String
  clue_filenames : List String
deriving DecidableEq

/-- Embedding of `_write_clue_files`. -/
def write_clue_files (wl : List String) (golden_path : List String)
    (treasure_key start_filename treasure_filename : String) (r : Rng) :
    ClueOut × Rng :=
  match golden_path with
  | [] =>
    ({ writes := [([start_filename], dotSlash ++ treasure_filename),
                  ([treasure_filename], treasure_key)],
       treasure_file := treasure_filename,
       treasure_path := [treasure_filename],
       clue_filenames := [] }, r)
  | g0 :: grest =>
    let cf := drawFilenames wl (g0 :: grest).length r
    let c0 := cf.1.headD ""
    ({ writes := ([start_filename], g0 ++ slash ++ c0) ::
         clueLoop treasure_key treasure_filename (g0 :: grest) cf.1 [],
       treasure_file :=
         String.intercalate slash (g0 :: grest) ++ slash ++ treasure_filename,
       treasure_path := (g0 :: grest) ++ [treasure_filename],
       clue_filenames := cf.1 }, cf.2)

/-- Difficulty preset triples. -/
structure GenParams where
  depth : Nat
  branching_factor : Nat
  file_density : Nat
deriving DecidableEq

/-- The `DIFFICULTY_PRESETS` table with its `.get(difficulty, medium)`
fallback; densities are scaled to parts per million. -/
def DIFFICULTY_PRESETS (difficulty : String) : GenParams :=
  if difficulty = "easy" then { depth := 4, branching_factor := 2, file_density := 200000 }
  else if difficulty = "hard" then { depth := 8, branching_factor := 4, file_density := 400000 }
  else { depth := 6, branching_factor := 3, file_density := 300000 }

/-- Name of the persisted configuration file. -/
def configFileName : String := ".treasure_hunt_config.json"

/-- Separator used when rendering the configuration document. -/
def commaSep : String := ", "

/-- Rendering of the persisted configuration document as a deterministic
function of its fields (stand-in for `json.dump`). -/
def renderConfig (treasure_key start_file treasure_file : String)
    (path_length num_directories_in_path : Nat) (golden_path : List String)
    (depth branching_factor file_density : Nat) (seed : Option Nat) : String :=
  String.intercalate commaSep
    [treasure_key, start_file, treasure_file,
     toString path_length, toString num_directories_in_path,
     String.intercalate slash golden_path,
     toString depth, toString branching_factor, toString file_density,
     match seed with | some s => toString s | none => "null"]

/-- Generator output: the returned metadata together with the produced
file tree (directories created and file writes in order, relative to the
base directory).  `treasure_name`, `treasure_path` and `clue_filenames`
expose for auditing the names the generator drew. -/
structure GenResult where
  treasure_key : String
  start_file : String
  treasure_name : String
  treasure_file : String
  path_length : Nat
  golden_path : List String
  clue_filenames : List String
  treasure_path : List String
  dirs : List (List String)
  writes : List (List String × String)
deriving DecidableEq

/-- The depth actually used after preset defaulting. -/
def effectiveDepth (depth? : Option Nat) (difficulty : String) : Nat :=
  depth?.getD (DIFFICULTY_PRESETS difficulty).depth

/-- Embedding of `generate_treasure_hunt`.  `wl` is the process word list
(`_WORD_LIST`), `hashOrder` the ambient set-iteration order, `uniqFuel`
and `redrawFuel` the fuel of the two unbounded source loops, and `rng0`
the ambient stream used when no seed is given.  `none` models the
uncaught `ValueError` from `random.randint` when its range is empty. -/
def generate_treasure_hunt (wl : List String)
    (hashOrder : List String → List String) (uniqFuel redrawFuel : Nat)
    (depth? branching_factor? file_density? : Option Nat)
    (seed : Option Nat) (difficulty : String) (rng0 : Rng) :
    Option GenResult :=
  let preset := DIFFICULTY_PRESETS difficulty
  let depth := depth?.getD preset.depth
  let branching_factor := branching_factor?.getD preset.branching_factor
  let file_density := file_density?.getD preset.file_density
  let r0 := match seed with | some s => seedRng s | none => rng0
  let key := generate_key 16 r0
  let sf := random_filename wl key.2
  let tf0 := random_filename wl sf.2
  let tf := distinctFilename wl sf.1 redrawFuel tf0.1 tf0.2
  let max_path_dirs := depth - 1
  match randint (max 2 (max_path_dirs - 1)) max_path_dirs tf.2 with
  | none => none
  | some pl =>
    let gp := generate_golden_path wl pl.1 pl.2
    let tree := build_tree wl hashOrder branching_factor file_density depth
      uniqFuel gp.1 0 [] gp.2
    let clue := write_clue_files wl gp.1 key.1 sf.1 tf.1 tree.2
    let config_write : List String × String :=
      ([configFileName],
       renderConfig key.1 sf.1 clue.1.treasure_file (pl.1 + 1) pl.1 gp.1
         depth branching_factor file_density seed)
    some
      { treasure_key := key.1, start_file := sf.1, treasure_name := tf.1,
        treasure_file := clue.1.treasure_file, path_length := pl.1 + 1,
        golden_path := gp.1, clue_filenames := clue.1.clue_filenames,
        treasure_path := clue.1.treasure_path,
        dirs := [] :: tree.1.dirs,
        writes := tree.1.writes ++ clue.1.writes ++ [config_write] }

/-- The fallback word list built into `_load_word_list`. -/
def fallbackWords : List String :=
  ["alpha", "beta", "gamma", "delta", "epsilon", "zeta", "theta", "omega",
   "mercury", "venus", "earth", "mars", "jupiter", "saturn", "uranus", "neptune",
   "apple", "banana", "cherry", "date", "elderberry", "fig", "grape", "honeydew",
   "iron", "jade", "kale", "lemon", "mango", "nectar", "olive", "peach",
   "quartz", "ruby", "sapphire", "topaz", "uranium", "violet", "willow", "xenon",
   "yellow", "zinc", "amber", "bronze", "coral", "diamond", "emerald", "flint"]

/-- Python `str.strip`: drop whitespace at both ends. -/
def strip (s : String) : String :=
  String.mk
    (((s.data.dropWhile Char.isWhitespace).reverse.dropWhile Char.isWhitespace).reverse)

/-- Python `str.lower` over the characters. -/
def lowerStr (s : String) : String :=
  String.mk (s.data.map Char.toLower)

/-- Filtering applied by `_load_word_list` to the lines of a system
dictionary file. -/
def processWords (lines : List String) : List String :=
  let words := lines.filterMap fun line =>
    let w := strip line
    if w ≠ "" ∧ w.data.all Char.isAlpha ∧ 3 ≤ w.length then
      some (lowerStr w)
    else none
  words.filter fun w => 3 ≤ w.length ∧ w.length ≤ 12

/-- Embedding of `_load_word_list`: the lines of the first existing
system dictionary when one exists on the machine, otherwise the built-in
fallback list. -/
def load_word_list (dictFile : Option (List String)) : List String :=
  match dictFile with
  | some lines => processWords lines
  | none => fallbackWords

/-!
Chain following.  The spec states that repeatedly reading the clue at
the current file and resolving its content as a relative path from the
clue's own directory reaches the treasure file in exactly `path_length`
hops (the generator's own test follows the chain the same way).  No
source function performs this walk, so it is defined here directly from
that description, over the file tree the generator produced.
-/

/-- Splitting a character list on a separator; groups are the maximal
separator-free runs. -/
def splitChars (sep : Char) : List Char → List (List Char)
  | [] => [[]]
  | c :: rest =>
    let r := splitChars sep rest
    if c = sep then [] :: r
    else
      match r with
      | [] => [[c]]
      | g :: gs => (c :: g) :: gs

/-- Parsing of a clue content string into path components. -/
def splitPath (s : String) : List String :=
  (splitChars slashChar s.data).map String.mk

/-- The file tree produced by a generation run, as a lookup list: later
writes override earlier ones, so lookups run over the reversed write
list. -/
def resultFiles (res : GenResult) : List (List String × String) :=
  res.writes.reverse

/-- Follow the clue chain from `cur`: stop on reaching the treasure file,
on a missing file, or when fuel runs out, otherwise read the content,
resolve it against the current file's directory, and continue.  Returns
the sequence of visited files. -/
def followChain (files : List (List String × String))
    (treasure_path : List String) : Nat → List String → List (List String)
  | 0, cur => [cur]
  | fuel + 1, cur =>
    if cur = treasure_path then [cur]
    else
      match files.lookup cur with
      | none => [cur]
      | some content =>
        cur :: followChain files treasure_path fuel
          (resolveComps cur.dropLast (splitPath content))

/-- The expected visited files after the start file: one clue per golden
directory, then the treasure file. -/
def chainTail (treasure_filename : String) :
    List String → List String → List String → List (List String)
  | [d], [c], cur => [cur ++ [d, c], cur ++ [d, treasure_filename]]
  | d :: d2 :: ds, c :: c2 :: cs, cur =>
    (cur ++ [d, c]) :: chainTail treasure_filename (d2 :: ds) (c2 :: cs) (cur ++ [d])
  | _, _, _ => []

/-- The expected full visited sequence of a hunt's golden chain. -/
def goldenChainPaths (golden_path clue_filenames : List String)
    (start_filename treasure_filename : String) : List (List String) :=
  [start_filename] :: chainTail treasure_filename golden_path clue_filenames []

/-- A usable word for file and directory names: nonempty, and free of
slashes and dots.  Words from `_load_word_list` satisfy this (the source
filters on `isalpha`), as does the fallback list. -/
def goodWord (w : String) : Prop :=
  w.data ≠ [] ∧ ∀ ch ∈ w.data, ch ≠ slashChar ∧ ch ≠ dotChar

/-- A usable word list: nonempty and all words usable. -/
def goodWordList (wl : List String) : Prop :=
  wl ≠ [] ∧ ∀ w ∈ wl, goodWord w

/-- All directories and file writes of a tree output stay within the
given depth (component count from the base). -/
def treeBounded (t : TreeOut) (md : Nat) : Prop :=
  (∀ p ∈ t.dirs, p.length ≤ md) ∧ (∀ w ∈ t.writes, w.1.length ≤ md)

/-- A filename of the shape the generator draws: a usable word followed
by ".txt". -/
def isTxtName (c : String) : Prop :=
  ∃ w, goodWord w ∧ c = w ++ txtExt

/-!
Concrete instances used to evaluate the definitions on explicit inputs.
-/

/-- A concrete correct key. -/
def keyRight : String := "SECRET123"

/-- A small hunt filesystem: one file and one empty subdirectory under
the root. -/
def fsA : Fs :=
  { dirs := [["hunt"], ["hunt", "subdir"]],
    files := [(["hunt", "file1.txt"], "Content 1")] }

/-- A game state at the root of `fsA`. -/
def stA : GameState :=
  { treasure_hunt_root := ["hunt"], current_dir := ["hunt"],
    turn_number := 0, max_turns := 50, max_tokens := 100000,
    tokens_used := 0, prompt_tokens_used := 0, completion_tokens_used := 0,
    treasure_key := keyRight, start_file := "s.txt",
    game_over := false, success := none }

/-- A concrete incorrect key. -/
def keyWrong : String := "WRONG"

/-- The absolute path "/etc/passwd". -/
def pAbs : PathArg :=
  { absolute := true, comps := ["etc", "passwd"], raw := "/etc/passwd" }

/-- The relative path "subdir". -/
def pSubdir : PathArg :=
  { absolute := false, comps := ["subdir"], raw := "subdir" }

/-- The relative path "file1.txt". -/
def pFile : PathArg :=
  { absolute := false, comps := ["file1.txt"], raw := "file1.txt" }

/-- An agent that reports a large token usage and requests one listing
every turn. -/
def agentBigUsage : Agent := fun _ _ =>
  .respond { tool_calls := [{ id := "1", name := nameLs, args := .noArgs }],
             usage := { prompt_tokens := 600, completion_tokens := 400,
                        total_tokens := 1000 } }

/-- The message of the exception `agentRaising` raises. -/
def msgBoom : String := "boom"

/-- An agent whose step raises an exception. -/
def agentRaising : Agent := fun _ _ => .fail msgBoom

/-- An agent that checks the correct key and then asks for a listing in
the same batch. -/
def agentCheckThenLs : Agent := fun _ _ =>
  .respond { tool_calls :=
               [{ id := "1", name := nameCheck, args := .keyArgs keyRight },
                { id := "2", name := nameLs, args := .pathArgs dotPath }],
             usage := { prompt_tokens := 6, completion_tokens := 4,
                        total_tokens := 10 } }

/-- An agent whose single batch puts the terminating `give_up` in the
middle: `pwd`, then `give_up`, then `ls`. -/
def agentPwdGiveUpLs : Agent := fun _ _ =>
  .respond { tool_calls :=
               [{ id := "1", name := namePwd, args := .noArgs },
                { id := "2", name := nameGiveUp, args := .noArgs },
                { id := "3", name := nameLs, args := .pathArgs dotPath }],
             usage := { prompt_tokens := 6, completion_tokens := 4,
                        total_tokens := 10 } }

/-- An ambient stream engineered so that an unseeded generation run draws
the same word for the last clue filename and the treasure filename. -/
def cexStream : Nat → Nat := fun n => if n = 17 ∨ n = 24 then 1 else 0

/-- A two-word machine dictionary. -/
def cexWl : List String := load_word_list (some ["abc", "def"])

/-- The ambient generator state over `cexStream`. -/
def cexRng : Rng := { stream := cexStream, pos := 0 }

/-- A machine dictionary disjoint from the fallback list. -/
def wordsB : List String := ["zzzaa", "zzzbb", "zzzcc"]

/-- The medium difficulty label. -/
def diffMedium : String := "medium"

/-- An arbitrary generator result, used only as a `getD` default. -/
def defaultGenResult : GenResult :=
  { treasure_key := "", start_file := "", treasure_name := "",
    treasure_file := "", path_length := 0, golden_path := [],
    clue_filenames := [], treasure_path := [], dirs := [], writes := [] }

/-- The result of a small successful generation run (seed 5, depth 3,
branching 1, density 0.3, over the two-word dictionary). -/
def wRes : GenResult :=
  (generate_treasure_hunt cexWl id 50 8 (some 3) (some 1) (some 300000)
    (some 5) diffMedium cexRng).getD defaultGenResult

/-- A second ambient stream, unused once a seed is supplied. -/
def otherRng : Rng := { stream := fun _ => 7, pos := 0 }

/-!
Theorems.
-/

/-- Validation fails with one of the two boundary errors whenever the
path is absolute or its resolution leaves the hunt root. -/
theorem validate_path_boundary (fs : Fs) (st : GameState) (p : PathArg)
    (me mbf : Bool)
    (h : p.absolute = true ∨
      st.treasure_hunt_root.isPrefixOf (resolveComps st.current_dir p.comps) = false) :
    validate_path fs st p me mbf = .error errAbsolute ∨
    validate_path fs st p me mbf = .error errOutside := by
  unfold validate_path
  rcases h with h | h
  · left
    simp [h]
  · by_cases ha : p.absolute = true
    · left
      simp [ha]
    · right
      simp only [Bool.not_eq_true] at ha
      simp [ha, h]

/-- The two boundary errors are error messages. -/
theorem isErrorMsg_boundary :
    isErrorMsg errAbsolute = true ∧ isErrorMsg errOutside = true := by
  decide

/-- C1: for every sandbox operation (`ls`, `cd`, `cat`) and every
caller-supplied path that is filesystem-absolute or whose resolution
against the current directory does not lie within the hunt root, the
operation returns an error string and leaves the game state (in
particular `current_dir`) unchanged. -/
theorem sandbox_boundary_violation_is_inert (fs : Fs) (st : GameState) (p : PathArg)
    (h : p.absolute = true ∨
      st.treasure_hunt_root.isPrefixOf (resolveComps st.current_dir p.comps) = false) :
    (isErrorMsg (ls fs st p).1 = true ∧ (ls fs st p).2 = st) ∧
    (isErrorMsg (cd fs st p).1 = true ∧ (cd fs st p).2 = st) ∧
    (isErrorMsg (cat fs st p).1 = true ∧ (cat fs st p).2 = st) := by
  have h1 := validate_path_boundary fs st p true false h
  have h2 := validate_path_boundary fs st p true true h
  have he := isErrorMsg_boundary
  refine ⟨?_, ?_, ?_⟩
  · rcases h1 with h1 | h1 <;> simp [ls, h1, he.1, he.2]
  · rcases h1 with h1 | h1 <;> simp [cd, h1, he.1, he.2]
  · rcases h2 with h2 | h2 <;> simp [cat, h2, he.1, he.2]

/-- Witness for C1: the absolute path "/etc/passwd" at a concrete state
is rejected by all three operations without touching the state. -/
theorem sandbox_boundary_violation_is_inert_witness :
    (isErrorMsg (ls fsA stA pAbs).1 = true ∧ (ls fsA stA pAbs).2 = stA) ∧
    (isErrorMsg (cd fsA stA pAbs).1 = true ∧ (cd fsA stA pAbs).2 = stA) ∧
    (isErrorMsg (cat fsA stA pAbs).1 = true ∧ (cat fsA stA pAbs).2 = stA) :=
  sandbox_boundary_violation_is_inert fsA stA pAbs (Or.inl rfl)

/-- C7: `check_treasure` with the key equal to the stored treasure key
marks the result correct and sets `game_over` and `success`; with any
other key it marks the result incorrect and leaves every field of the
state unchanged, so the game continues. -/
theorem check_treasure_matches_and_mismatches (st : GameState) (key : String) :
    (key = st.treasure_key →
      (check_treasure st key).1.correct = true ∧
      (check_treasure st key).2.game_over = true ∧
      (check_treasure st key).2.success = some true) ∧
    (key ≠ st.treasure_key →
      (check_treasure st key).1.correct = false ∧
      (check_treasure st key).2 = st) := by
  refine ⟨fun h => ?_, fun h => ?_⟩ <;> simp [check_treasure, h]

/-- Witness for C7 at a concrete state and concrete keys. -/
theorem check_treasure_matches_and_mismatches_witness :
    ((check_treasure stA keyRight).1.correct = true ∧
     (check_treasure stA keyRight).2.game_over = true ∧
     (check_treasure stA keyRight).2.success = some true) ∧
    ((check_treasure stA keyWrong).1.correct = false ∧
     (check_treasure stA keyWrong).2 = stA) :=
  ⟨(check_treasure_matches_and_mismatches stA keyRight).1 (by decide),
   (check_treasure_matches_and_mismatches stA keyWrong).2 (by decide)⟩

/-- C8: evaluating `ls` on a directory holding `file1.txt` and `subdir`
shows that the source joins the sorted, "/"-suffixed entry names with
the literal two-character sequence backslash-n (the file reads
`"\\n".join(items)`), not with newline characters as the spec and the
function docstring describe; the empty-directory sentinel and the
not-a-directory error behave as specified. -/
theorem ls_joins_with_literal_backslash_n :
    (ls fsA stA dotPath).1 = "file1.txt\\nsubdir/" ∧
    (ls fsA stA dotPath).1 ≠ "file1.txt" ++ "\n" ++ "subdir/" ∧
    (ls fsA stA pSubdir).1 = emptyDirMsg ∧
    (ls fsA stA pFile).1 = errNotDir pFile.raw ∧
    (ls fsA stA pFile).2 = stA := by
  decide

/-- The loop guard holds (the `while` continues) under the running
conditions. -/
theorem loop_guard_off (st : GameState)
    (hrun : st.game_over = false ∧ st.turn_number < st.max_turns ∧
      st.tokens_used < st.max_tokens) :
    ¬ (st.game_over = true ∨ st.max_turns ≤ st.turn_number ∨
       st.max_tokens ≤ st.tokens_used) := by
  rintro (h | h | h)
  · rw [hrun.1] at h
    exact Bool.false_ne_true h
  · exact absurd h (Nat.not_le.mpr hrun.2.1)
  · exact absurd h (Nat.not_le.mpr hrun.2.2)

/-- C5: in any turn of the game loop, if adding the turn's reported
token usage makes the running total meet or exceed the token budget, the
loop terminates with reason `max_tokens` and none of that turn's
requested tool calls is executed or logged (the call log is exactly the
log accumulated before the turn). -/
theorem max_tokens_terminates_before_tools (fs : Fs) (agent : Agent)
    (fuel : Nat) (st : GameState) (log : List LogEntry) (input : GameInput)
    (resp : AgentResponse)
    (hrun : st.game_over = false ∧ st.turn_number < st.max_turns ∧
      st.tokens_used < st.max_tokens)
    (hstep : agent (st.turn_number + 1) input = .respond resp)
    (hover : st.max_tokens ≤ st.tokens_used + resp.usage.total_tokens) :
    runLoop fs agent (fuel + 1) st log input =
      endGame (addUsage (bumpTurn st) resp.usage) log false reasonMaxTokens none ∧
    (runLoop fs agent (fuel + 1) st log input).end_reason = reasonMaxTokens ∧
    (runLoop fs agent (fuel + 1) st log input).tool_calls = log := by
  have hb : (bumpTurn st).turn_number = st.turn_number + 1 := rfl
  have hmain : runLoop fs agent (fuel + 1) st log input =
      endGame (addUsage (bumpTurn st) resp.usage) log false reasonMaxTokens none := by
    simp only [runLoop]
    rw [if_neg (loop_guard_off st hrun), hb, hstep]
    dsimp only
    rw [if_pos (show (addUsage (bumpTurn st) resp.usage).max_tokens ≤
      (addUsage (bumpTurn st) resp.usage).tokens_used from hover)]
  exact ⟨hmain, by rw [hmain]; rfl, by rw [hmain]; rfl⟩

/-- Witness for C5: an agent reporting 1000 tokens per turn against a
budget of 1000 stops after its first turn with no executed tools. -/
theorem max_tokens_terminates_before_tools_witness :
    runLoop fsA agentBigUsage 3
        { stA with max_tokens := 1000 } [] (.text (initialMessage stA.start_file)) =
      endGame (addUsage (bumpTurn { stA with max_tokens := 1000 })
        { prompt_tokens := 600, completion_tokens := 400, total_tokens := 1000 })
        [] false reasonMaxTokens none ∧
    (runLoop fsA agentBigUsage 3
        { stA with max_tokens := 1000 } [] (.text (initialMessage stA.start_file))).end_reason =
      reasonMaxTokens ∧
    (runLoop fsA agentBigUsage 3
        { stA with max_tokens := 1000 } [] (.text (initialMessage stA.start_file))).tool_calls =
      ([] : List LogEntry) :=
  max_tokens_terminates_before_tools fsA agentBigUsage 2
    { stA with max_tokens := 1000 } [] (.text (initialMessage stA.start_file))
    { tool_calls := [{ id := "1", name := nameLs, args := .noArgs }],
      usage := { prompt_tokens := 600, completion_tokens := 400,
                 total_tokens := 1000 } }
    (by decide) rfl (by decide)

/-- C9: if the agent collaborator raises during a turn, the loop
terminates immediately with `success = false`, reason `error`, the
exception message attached in the error field, and no tools executed or
logged in that turn. -/
theorem agent_exception_ends_game (fs : Fs) (agent : Agent) (fuel : Nat)
    (st : GameState) (log : List LogEntry) (input : GameInput) (msg : String)
    (hrun : st.game_over = false ∧ st.turn_number < st.max_turns ∧
      st.tokens_used < st.max_tokens)
    (hstep : agent (st.turn_number + 1) input = .fail msg) :
    runLoop fs agent (fuel + 1) st log input =
      endGame (bumpTurn st) log false reasonError (some (agentErrorPre ++ msg)) ∧
    (runLoop fs agent (fuel + 1) st log input).success = false ∧
    (runLoop fs agent (fuel + 1) st log input).end_reason = reasonError ∧
    (runLoop fs agent (fuel + 1) st log input).error =
      some (agentErrorPre ++ msg) ∧
    (runLoop fs agent (fuel + 1) st log input).tool_calls = log := by
  have hb : (bumpTurn st).turn_number = st.turn_number + 1 := rfl
  have hmain : runLoop fs agent (fuel + 1) st log input =
      endGame (bumpTurn st) log false reasonError (some (agentErrorPre ++ msg)) := by
    simp only [runLoop]
    rw [if_neg (loop_guard_off st hrun), hb, hstep]
  exact ⟨hmain, by rw [hmain]; rfl, by rw [hmain]; rfl, by rw [hmain]; rfl,
    by rw [hmain]; rfl⟩

/-- Witness for C9: an agent that raises on its first step ends the game
at once with the error attached. -/
theorem agent_exception_ends_game_witness :
    runLoop fsA agentRaising 51 stA [] (.text (initialMessage stA.start_file)) =
      endGame (bumpTurn stA) [] false reasonError
        (some (agentErrorPre ++ msgBoom)) ∧
    (runLoop fsA agentRaising 51 stA [] (.text (initialMessage stA.start_file))).success =
      false ∧
    (runLoop fsA agentRaising 51 stA [] (.text (initialMessage stA.start_file))).end_reason =
      reasonError ∧
    (runLoop fsA agentRaising 51 stA [] (.text (initialMessage stA.start_file))).error =
      some (agentErrorPre ++ msgBoom) ∧
    (runLoop fsA agentRaising 51 stA [] (.text (initialMessage stA.start_file))).tool_calls =
      ([] : List LogEntry) :=
  agent_exception_ends_game fsA agentRaising 50 stA []
    (.text (initialMessage stA.start_file)) msgBoom (by decide) rfl

/-- Sequential execution of a batch whose prefix never triggers the
early stop: the prefix's results, state and log entries accumulate, and
execution continues on the suffix. -/
theorem executeTools_no_stop_front (fs : Fs) (pre : List ToolCall) :
    ∀ st log suffix, noStopBatch fs st pre →
    executeTools fs st log (pre ++ suffix) =
      (batchResults fs st pre ++
        (executeTools fs (batchState fs st pre)
          (log ++ batchEntries fs st pre) suffix).1,
       (executeTools fs (batchState fs st pre)
         (log ++ batchEntries fs st pre) suffix).2.1,
       (executeTools fs (batchState fs st pre)
         (log ++ batchEntries fs st pre) suffix).2.2) := by
  induction pre with
  | nil =>
    intro st log suffix h
    simp [batchResults, batchEntries, batchState]
  | cons c pr ih =>
    intro st log suffix h
    simp only [noStopBatch] at h
    obtain ⟨h1, h2⟩ := h
    simp only [List.cons_append, executeTools]
    rw [if_neg h1]
    simp only [List.append_eq]
    rw [ih _ _ _ h2]
    simp [batchResults, batchEntries, batchState, List.append_assoc]

/-- C6: within a turn's batch, executed in order, once a
`check_treasure` or `give_up` call — at any position of the batch — sets
`game_over`, every earlier call has been executed and logged, the
terminating call itself is executed and logged, no later call of the
batch is executed or logged, and the loop terminates with reason
`treasure_found` when `success` is set and `gave_up` otherwise. -/
theorem terminating_call_drops_rest (fs : Fs) (agent : Agent) (fuel : Nat)
    (st : GameState) (log : List LogEntry) (input : GameInput)
    (resp : AgentResponse) (pre : List ToolCall) (c : ToolCall)
    (rest : List ToolCall)
    (hrun : st.game_over = false ∧ st.turn_number < st.max_turns ∧
      st.tokens_used < st.max_tokens)
    (hstep : agent (st.turn_number + 1) input = .respond resp)
    (htok : st.tokens_used + resp.usage.total_tokens < st.max_tokens)
    (hcalls : resp.tool_calls = pre ++ c :: rest)
    (hpre : noStopBatch fs (addUsage (bumpTurn st) resp.usage) pre)
    (hname : c.name = nameCheck ∨ c.name = nameGiveUp)
    (hgo : (executeToolCall fs
        (batchState fs (addUsage (bumpTurn st) resp.usage) pre)
        c).2.game_over = true) :
    executeTools fs (addUsage (bumpTurn st) resp.usage) log
        (pre ++ c :: rest) =
      (batchResults fs (addUsage (bumpTurn st) resp.usage) pre ++
        [{ tool_call_id := c.id, name := c.name,
           result := (executeToolCall fs
             (batchState fs (addUsage (bumpTurn st) resp.usage) pre) c).1 }],
       (executeToolCall fs
         (batchState fs (addUsage (bumpTurn st) resp.usage) pre) c).2,
       log ++ batchEntries fs (addUsage (bumpTurn st) resp.usage) pre ++
         [{ turn := (batchState fs (addUsage (bumpTurn st) resp.usage)
              pre).turn_number,
            name := c.name, arguments := c.args,
            result := (executeToolCall fs
              (batchState fs (addUsage (bumpTurn st) resp.usage) pre) c).1 }]) ∧
    runLoop fs agent (fuel + 1) st log input =
      endGame (executeToolCall fs
          (batchState fs (addUsage (bumpTurn st) resp.usage) pre) c).2
        (log ++ batchEntries fs (addUsage (bumpTurn st) resp.usage) pre ++
          [{ turn := (batchState fs (addUsage (bumpTurn st) resp.usage)
               pre).turn_number,
             name := c.name, arguments := c.args,
             result := (executeToolCall fs
               (batchState fs (addUsage (bumpTurn st) resp.usage) pre) c).1 }])
        ((executeToolCall fs
            (batchState fs (addUsage (bumpTurn st) resp.usage) pre)
            c).2.success.getD false)
        (if (executeToolCall fs
              (batchState fs (addUsage (bumpTurn st) resp.usage) pre)
              c).2.success.getD false
         then reasonTreasureFound else reasonGaveUp) none := by
  have hb : (bumpTurn st).turn_number = st.turn_number + 1 := rfl
  have hstop : executeTools fs
      (batchState fs (addUsage (bumpTurn st) resp.usage) pre)
      (log ++ batchEntries fs (addUsage (bumpTurn st) resp.usage) pre)
      (c :: rest) =
      ([{ tool_call_id := c.id, name := c.name,
          result := (executeToolCall fs
            (batchState fs (addUsage (bumpTurn st) resp.usage) pre) c).1 }],
       (executeToolCall fs
         (batchState fs (addUsage (bumpTurn st) resp.usage) pre) c).2,
       (log ++ batchEntries fs (addUsage (bumpTurn st) resp.usage) pre) ++
         [{ turn := (batchState fs (addUsage (bumpTurn st) resp.usage)
              pre).turn_number,
            name := c.name, arguments := c.args,
            result := (executeToolCall fs
              (batchState fs (addUsage (bumpTurn st) resp.usage) pre) c).1 }]) := by
    simp only [executeTools]
    rw [if_pos ⟨hname, hgo⟩]
  have hexec : executeTools fs (addUsage (bumpTurn st) resp.usage) log
      (pre ++ c :: rest) =
      (batchResults fs (addUsage (bumpTurn st) resp.usage) pre ++
        [{ tool_call_id := c.id, name := c.name,
           result := (executeToolCall fs
             (batchState fs (addUsage (bumpTurn st) resp.usage) pre) c).1 }],
       (executeToolCall fs
         (batchState fs (addUsage (bumpTurn st) resp.usage) pre) c).2,
       log ++ batchEntries fs (addUsage (bumpTurn st) resp.usage) pre ++
         [{ turn := (batchState fs (addUsage (bumpTurn st) resp.usage)
              pre).turn_number,
            name := c.name, arguments := c.args,
            result := (executeToolCall fs
              (batchState fs (addUsage (bumpTurn st) resp.usage) pre) c).1 }]) := by
    rw [executeTools_no_stop_front fs pre _ log (c :: rest) hpre, hstop]
  refine ⟨hexec, ?_⟩
  simp only [runLoop]
  rw [if_neg (loop_guard_off st hrun), hb, hstep]
  dsimp only
  rw [if_neg (show ¬ (addUsage (bumpTurn st) resp.usage).max_tokens ≤
    (addUsage (bumpTurn st) resp.usage).tokens_used from Nat.not_le.mpr htok)]
  rw [hcalls]
  rw [if_neg (show ¬ (pre ++ c :: rest = ([] : List ToolCall)) from by simp)]
  rw [hexec]
  dsimp only
  rw [if_pos hgo]

/-- Witness for C6: with the batch `pwd`, `give_up`, `ls` — the
terminating call in the middle — the call log contains the `pwd` and
`give_up` entries and no `ls` entry, and the loop ends as `gave_up`
with `success = false`. -/
theorem terminating_call_drops_rest_witness :
    (runLoop fsA agentPwdGiveUpLs 51 stA []
        (.text (initialMessage stA.start_file))).tool_calls.map LogEntry.name =
      [namePwd, nameGiveUp] ∧
    (runLoop fsA agentPwdGiveUpLs 51 stA []
        (.text (initialMessage stA.start_file))).end_reason = reasonGaveUp ∧
    (runLoop fsA agentPwdGiveUpLs 51 stA []
        (.text (initialMessage stA.start_file))).success = false := by
  have h := terminating_call_drops_rest fsA agentPwdGiveUpLs 50 stA []
    (.text (initialMessage stA.start_file))
    { tool_calls :=
        [{ id := "1", name := namePwd, args := .noArgs },
         { id := "2", name := nameGiveUp, args := .noArgs },
         { id := "3", name := nameLs, args := .pathArgs dotPath }],
      usage := { prompt_tokens := 6, completion_tokens := 4,
                 total_tokens := 10 } }
    [{ id := "1", name := namePwd, args := .noArgs }]
    { id := "2", name := nameGiveUp, args := .noArgs }
    [{ id := "3", name := nameLs, args := .pathArgs dotPath }]
    (by decide) rfl (by decide) rfl
    (by simp only [noStopBatch]; decide) (Or.inr rfl) (by decide)
  rw [h.2]
  decide

/-- An empty `randint` range yields the error case. -/
theorem randint_eq_none (lo hi : Nat) (r : Rng) (h : hi < lo) :
    randint lo hi r = none := by
  simp [randint, h]

/-- A successful `randint` draw lies in the requested range. -/
theorem randint_bounds (lo hi : Nat) (r : Rng) (p : Nat × Rng)
    (h : randint lo hi r = some p) : lo ≤ p.1 ∧ p.1 ≤ hi := by
  unfold randint at h
  split at h
  · cases h
  · rename_i hle
    injection h with h
    subst h
    have hm : r.next.1 % (hi + 1 - lo) < hi + 1 - lo :=
      Nat.mod_lt _ (by omega)
    constructor
    · exact Nat.le_add_right _ _
    · simpa using by omega

/-- The golden path has exactly the requested number of directories. -/
theorem generate_golden_path_length (wl : List String) :
    ∀ n r, ((generate_golden_path wl n r).1).length = n := by
  intro n
  induction n with
  | zero => intro r; rfl
  | succ k ih => intro r; simp [generate_golden_path, ih]

/-- For a nonempty golden path, the treasure is placed at the end of the
golden directory chain. -/
theorem write_clue_files_treasure_path (wl : List String)
    (golden : List String) (k s t : String) (r : Rng) (h : golden ≠ []) :
    ((write_clue_files wl golden k s t r).1).treasure_path = golden ++ [t] := by
  cases golden with
  | nil => exact absurd rfl h
  | cons g0 grest => rfl

/-- C10: `generate_treasure_hunt` fails (the embedded `randint` raises on
an empty range, modelled as `none`) for every explicit depth of at most
2; consequently every completed generation has at least 2 golden
directories, so the zero-directory branch of `_write_clue_files` that
would place the treasure at the root is unreachable — the treasure path
is always the golden chain extended by the treasure filename. -/
theorem degenerate_depth_unreachable :
    (∀ (wl : List String) (hashOrder : List String → List String)
      (uf rf : Nat) (b? d? : Option Nat) (seed : Option Nat) (diff : String)
      (rng : Rng) (d : Nat), d ≤ 2 →
      generate_treasure_hunt wl hashOrder uf rf (some d) b? d? seed diff rng =
        none) ∧
    (∀ (wl : List String) (hashOrder : List String → List String)
      (uf rf : Nat) (depth? b? d? : Option Nat) (seed : Option Nat)
      (diff : String) (rng : Rng) (res : GenResult),
      generate_treasure_hunt wl hashOrder uf rf depth? b? d? seed diff rng =
        some res →
      2 ≤ res.golden_path.length ∧ res.golden_path ≠ [] ∧
      res.treasure_path = res.golden_path ++ [res.treasure_name]) := by
  constructor
  · intro wl hashOrder uf rf b? d? seed diff rng d hd
    simp only [generate_treasure_hunt]
    rw [randint_eq_none]
    simp only [Option.getD_some]
    omega
  · intro wl hashOrder uf rf depth? b? d? seed diff rng res hgen
    simp only [generate_treasure_hunt] at hgen
    split at hgen
    · cases hgen
    · rename_i pl heq
      have hb := randint_bounds _ _ _ _ heq
      have h2 : 2 ≤ pl.1 := le_trans (Nat.le_max_left 2 _) hb.1
      injection hgen with hres
      subst hres
      dsimp only
      rw [generate_golden_path_length]
      have hne : (generate_golden_path wl pl.1 pl.2).1 ≠ [] := by
        apply List.length_pos.mp
        rw [generate_golden_path_length]
        omega
      refine ⟨h2, hne, ?_⟩
      rw [write_clue_files_treasure_path _ _ _ _ _ _ hne]

/-- Witness for C10: generation fails at depth 2 and a successful depth-3
run has two golden directories with the treasure at their end. -/
theorem degenerate_depth_unreachable_witness :
    generate_treasure_hunt cexWl id 50 8 (some 2) (some 1) (some 300000)
      (some 5) diffMedium cexRng = none ∧
    (2 ≤ wRes.golden_path.length ∧ wRes.golden_path ≠ [] ∧
      wRes.treasure_path = wRes.golden_path ++ [wRes.treasure_name]) :=
  ⟨degenerate_depth_unreachable.1 cexWl id 50 8 (some 1) (some 300000)
      (some 5) diffMedium cexRng 2 (by decide),
   degenerate_depth_unreachable.2 cexWl id 50 8 (some 3) (some 1)
      (some 300000) (some 5) diffMedium cexRng wRes (by decide)⟩

/-- C3 counterexample: with the same seed and the same parameters, a run
on a machine without a system dictionary (the fallback word list) and a
run on a machine whose dictionary holds other words produce different
trees — already the start file names differ — so generation is not
reproducible across machines. -/
theorem same_seed_differs_across_machines :
    (generate_treasure_hunt (load_word_list none) id 50 8 (some 3) (some 0)
        (some 0) (some 99) diffMedium cexRng).map GenResult.start_file ≠
    (generate_treasure_hunt (load_word_list (some wordsB)) id 50 8 (some 3)
        (some 0) (some 0) (some 99) diffMedium cexRng).map GenResult.start_file := by
  decide

/-- C3 amended: for every seed and fixed parameters, two runs that load
equal word lists (and share the ambient set-iteration order) produce
identical results — in particular the ambient stream is irrelevant once
a seed is supplied, so a seeded run is reproducible within one machine
environment. -/
theorem same_seed_same_word_list_reproduces (env1 env2 : Option (List String))
    (hwl : load_word_list env1 = load_word_list env2)
    (hashOrder : List String → List String) (uf rf : Nat)
    (depth? b? d? : Option Nat) (s : Nat) (diff : String) (rngA rngB : Rng) :
    generate_treasure_hunt (load_word_list env1) hashOrder uf rf depth? b? d?
      (some s) diff rngA =
    generate_treasure_hunt (load_word_list env2) hashOrder uf rf depth? b? d?
      (some s) diff rngB := by
  rw [hwl]
  rfl

/-- Witness for C3: two seeded runs over the same dictionary but
different ambient streams coincide. -/
theorem same_seed_same_word_list_reproduces_witness :
    generate_treasure_hunt (load_word_list (some wordsB)) id 50 8 (some 3)
      (some 0) (some 0) (some 99) diffMedium cexRng =
    generate_treasure_hunt (load_word_list (some wordsB)) id 50 8 (some 3)
      (some 0) (some 0) (some 99) diffMedium otherRng :=
  same_seed_same_word_list_reproduces (some wordsB) (some wordsB) rfl id 50 8
    (some 3) (some 0) (some 0) 99 diffMedium cexRng otherRng

/-- A red-herring clue is written one component below its directory. -/
theorem write_red_herring_clue_length (wl : List String) (dir : List String)
    (r : Rng) :
    (((write_red_herring_clue wl dir r).1).1).length = dir.length + 1 := by
  simp only [write_red_herring_clue]
  split_ifs <;> simp

/-- The empty tree is bounded. -/
theorem emptyTree_bounded (md : Nat) : treeBounded emptyTree md := by
  constructor <;> intro x hx <;> simp [emptyTree] at hx

/-- Gluing bound: the tree output composed by the red-herring child loop
is bounded when its parts are. -/
theorem treeBounded_glue_rh (dp : List String)
    (cl : List (List String × String)) (a b : TreeOut) (md : Nat)
    (hdp : dp.length ≤ md) (hcl : ∀ w ∈ cl, (w.1).length ≤ md)
    (ha : treeBounded a md) (hb : treeBounded b md) :
    treeBounded { dirs := [dp] ++ a.dirs ++ b.dirs,
                  writes := cl ++ a.writes ++ b.writes } md := by
  constructor
  · intro p hp
    replace hp : p ∈ [dp] ++ a.dirs ++ b.dirs := hp
    simp only [List.mem_append, List.mem_singleton] at hp
    rcases hp with (hp | hp) | hp
    · subst hp; exact hdp
    · exact ha.1 p hp
    · exact hb.1 p hp
  · intro w hw
    replace hw : w ∈ cl ++ a.writes ++ b.writes := hw
    simp only [List.mem_append] at hw
    rcases hw with (hw | hw) | hw
    · exact hcl w hw
    · exact ha.2 w hw
    · exact hb.2 w hw

/-- Gluing bound in the order used by the golden level loop. -/
theorem treeBounded_glue_level (dp : List String)
    (cl : List (List String × String)) (a b : TreeOut) (md : Nat)
    (hdp : dp.length ≤ md) (hcl : ∀ w ∈ cl, (w.1).length ≤ md)
    (ha : treeBounded a md) (hb : treeBounded b md) :
    treeBounded { dirs := [dp] ++ a.dirs ++ b.dirs,
                  writes := a.writes ++ cl ++ b.writes } md := by
  constructor
  · intro p hp
    replace hp : p ∈ [dp] ++ a.dirs ++ b.dirs := hp
    simp only [List.mem_append, List.mem_singleton] at hp
    rcases hp with (hp | hp) | hp
    · subst hp; exact hdp
    · exact ha.1 p hp
    · exact hb.1 p hp
  · intro w hw
    replace hw : w ∈ a.writes ++ cl ++ b.writes := hw
    simp only [List.mem_append] at hw
    rcases hw with (hw | hw) | hw
    · exact ha.2 w hw
    · exact hcl w hw
    · exact hb.2 w hw

/-- Children created by the red-herring child loop stay within the depth
ceiling, assuming the recursive subtree builder does. -/
theorem rhChildren_bounded (wl : List String) (fd md : Nat)
    (recurse : Nat → List String → Rng → TreeOut × Rng)
    (hrec : ∀ cd pre r, pre.length = cd →
      treeBounded (recurse cd pre r).1 md) :
    ∀ count cd pre r, pre.length = cd → cd < md →
      treeBounded (rhChildren wl fd md recurse count cd pre r).1 md := by
  intro count
  induction count with
  | zero =>
    intro cd pre r hpre hlt
    exact emptyTree_bounded md
  | succ k ih =>
    intro cd pre r hpre hlt
    simp only [rhChildren]
    apply treeBounded_glue_rh
    · simp [hpre]
      omega
    · intro w hw
      split_ifs at hw <;> simp at hw
      all_goals
        (subst hw
         rw [write_red_herring_clue_length]
         simp [hpre]
         omega)
    · split_ifs <;>
        first
          | exact hrec _ _ _ (by simp [hpre])
          | exact emptyTree_bounded md
    · exact ih cd pre _ hpre hlt

/-- Red-herring subtrees stay within the depth ceiling. -/
theorem build_red_herring_subtree_bounded (wl : List String)
    (bf fd md : Nat) :
    ∀ fuel cd pre r, pre.length = cd →
      treeBounded (build_red_herring_subtree wl bf fd md fuel cd pre r).1 md := by
  intro fuel
  induction fuel with
  | zero =>
    intro cd pre r hpre
    exact emptyTree_bounded md
  | succ k ih =>
    intro cd pre r hpre
    simp only [build_red_herring_subtree]
    split_ifs with h1 h2
    · exact emptyTree_bounded md
    · exact emptyTree_bounded md
    · exact rhChildren_bounded wl fd md _
        (fun cd' pre' r' hp => ih cd' pre' r' hp) _ cd pre _ hpre (by omega)

/-- One golden level stays within the depth ceiling, assuming the
continuation of the golden path does. -/
theorem levelLoop_bounded (wl : List String) (bf fd md : Nat)
    (correct : String)
    (goldenRec : Nat → List String → Rng → TreeOut × Rng)
    (hrec : ∀ cd pre r, pre.length = cd →
      treeBounded (goldenRec cd pre r).1 md) :
    ∀ names cd pre r, pre.length = cd → cd < md →
      treeBounded (levelLoop wl bf fd md correct goldenRec names cd pre r).1 md := by
  intro names
  induction names with
  | nil =>
    intro cd pre r hpre hlt
    exact emptyTree_bounded md
  | cons dirname rest ih =>
    intro cd pre r hpre hlt
    simp only [levelLoop]
    apply treeBounded_glue_level
    · simp [hpre]
      omega
    · intro w hw
      split_ifs at hw <;> simp at hw <;>
        (subst hw
         rw [write_red_herring_clue_length]
         simp [hpre]
         omega)
    · split_ifs <;>
        first
          | exact hrec _ _ _ (by simp [hpre])
          | exact build_red_herring_subtree_bounded wl bf fd md md _ _ _
              (by simp [hpre])
          | exact emptyTree_bounded md
    · exact ih cd pre _ hpre hlt

/-- The built tree stays within the depth ceiling. -/
theorem build_tree_bounded (wl : List String)
    (hashOrder : List String → List String) (bf fd md uf : Nat) :
    ∀ golden cd pre r, pre.length = cd →
      treeBounded (build_tree wl hashOrder bf fd md uf golden cd pre r).1 md := by
  intro golden
  induction golden with
  | nil =>
    intro cd pre r hpre
    exact emptyTree_bounded md
  | cons correct goldenRest ih =>
    intro cd pre r hpre
    simp only [build_tree]
    split_ifs with h1
    · exact emptyTree_bounded md
    · exact levelLoop_bounded wl bf fd md correct _
        (fun cd' pre' r' hp => ih cd' pre' r' hp) _ cd pre _ hpre (by omega)

/-- Writes of the clue loop stay within one component below the end of
the remaining golden directories. -/
theorem clueLoop_writes_length (k t : String) :
    ∀ ds cs cur, ∀ w ∈ clueLoop k t ds cs cur,
      (w.1).length ≤ cur.length + ds.length + 1 := by
  intro ds
  induction ds with
  | nil =>
    intro cs cur w hw
    simp [clueLoop] at hw
  | cons d ds ih =>
    intro cs cur w hw
    cases ds with
    | nil =>
      cases cs with
      | nil => simp [clueLoop] at hw
      | cons c cs' =>
        cases cs' with
        | nil =>
          simp only [clueLoop, List.mem_cons, List.mem_singleton,
            List.not_mem_nil, or_false] at hw
          rcases hw with hw | hw <;> subst hw <;> simp
        | cons c2 cs'' => simp [clueLoop] at hw
    | cons d2 ds' =>
      cases cs with
      | nil => simp [clueLoop] at hw
      | cons c cs2 =>
        cases cs2 with
        | nil => simp [clueLoop] at hw
        | cons c2 cs3 =>
          simp only [clueLoop, List.mem_cons] at hw
          rcases hw with hw | hw
          · subst hw
            simp
            try omega
          · have := ih (c2 :: cs3) (cur ++ [d]) w hw
            simp at this ⊢
            omega

/-- Writes of `_write_clue_files` stay within one component below the
end of the golden path. -/
theorem write_clue_files_writes_length (wl : List String)
    (golden : List String) (k s t : String) (r : Rng) :
    ∀ w ∈ ((write_clue_files wl golden k s t r).1).writes,
      (w.1).length ≤ golden.length + 1 := by
  intro w hw
  cases golden with
  | nil =>
    simp only [write_clue_files, List.mem_cons, List.mem_singleton,
      List.not_mem_nil, or_false] at hw
    rcases hw with hw | hw <;> subst hw <;> simp
  | cons g0 grest =>
    simp only [write_clue_files, List.mem_cons] at hw
    rcases hw with hw | hw
    · subst hw
      simp
    · have hc := clueLoop_writes_length k t (g0 :: grest)
        (drawFilenames wl (g0 :: grest).length r).1 [] w hw
      simpa using hc

/-- C4: every directory and every file created by a completed generation
run lies at depth (component count from the base directory) at most the
configured depth. -/
theorem generated_tree_respects_depth
    (wl : List String) (hashOrder : List String → List String)
    (uf rf : Nat) (depth? b? d? : Option Nat) (seed : Option Nat)
    (diff : String) (rng : Rng) (res : GenResult)
    (hgen : generate_treasure_hunt wl hashOrder uf rf depth? b? d? seed diff
      rng = some res) :
    (∀ p ∈ res.dirs, p.length ≤ effectiveDepth depth? diff) ∧
    (∀ w ∈ res.writes, (w.1).length ≤ effectiveDepth depth? diff) := by
  simp only [generate_treasure_hunt] at hgen
  split at hgen
  · cases hgen
  · rename_i pl heq
    have hb := randint_bounds _ _ _ _ heq
    have hdep3 : 3 ≤ depth?.getD (DIFFICULTY_PRESETS diff).depth := by
      rcases Nat.lt_or_ge
        (depth?.getD (DIFFICULTY_PRESETS diff).depth - 1) 2 with hlt | hge
      · exfalso
        rw [randint_eq_none _ _ _ (by omega)] at heq
        cases heq
      · omega
    injection hgen with hres
    subst hres
    simp only [effectiveDepth]
    constructor
    · intro p hp
      simp only [List.mem_cons] at hp
      rcases hp with hp | hp
      · subst hp
        simp
      · exact (build_tree_bounded wl hashOrder _ _ _ uf _ 0 [] _ rfl).1 p hp
    · intro w hw
      simp only [List.mem_append, List.mem_singleton] at hw
      rcases hw with (hw | hw) | hw
      · exact (build_tree_bounded wl hashOrder _ _ _ uf _ 0 [] _ rfl).2 w hw
      · have hc := write_clue_files_writes_length wl _ _ _ _ _ w hw
        rw [generate_golden_path_length wl pl.1 pl.2] at hc
        omega
      · subst hw
        simp
        omega

/-- Witness for C4: the concrete depth-3 run stays within depth 3. -/
theorem generated_tree_respects_depth_witness :
    (∀ p ∈ wRes.dirs, p.length ≤ effectiveDepth (some 3) diffMedium) ∧
    (∀ w ∈ wRes.writes, (w.1).length ≤ effectiveDepth (some 3) diffMedium) :=
  generated_tree_respects_depth cexWl id 50 8 (some 3) (some 1) (some 300000)
    (some 5) diffMedium cexRng wRes (by decide)

/-- A separator-free character list is one group. -/
theorem splitChars_no_sep (sep : Char) :
    ∀ l : List Char, sep ∉ l → splitChars sep l = [l] := by
  intro l
  induction l with
  | nil => intro h; rfl
  | cons c rest ih =>
    intro h
    have hc : ¬ c = sep := fun hc => h (by simp [hc])
    have hr : sep ∉ rest := fun hr => h (by simp [hr])
    simp [splitChars, hc, ih hr]

/-- Splitting at the first separator peels off the leading group. -/
theorem splitChars_append (sep : Char) :
    ∀ l1 l2 : List Char, sep ∉ l1 →
      splitChars sep (l1 ++ sep :: l2) = l1 :: splitChars sep l2 := by
  intro l1
  induction l1 with
  | nil =>
    intro l2 h
    simp [splitChars]
  | cons c rest ih =>
    intro l2 h
    have hc : ¬ c = sep := fun hc => h (by simp [hc])
    have hr : sep ∉ rest := fun hr => h (by simp [hr])
    have h1 : (c :: rest) ++ sep :: l2 = c :: (rest ++ sep :: l2) := rfl
    rw [h1, splitChars, ih l2 hr]
    simp [hc]

/-- Parsing a two-component clue content recovers its components. -/
theorem splitPath_pair (a b : String)
    (ha : slashChar ∉ a.data) (hb : slashChar ∉ b.data) :
    splitPath (a ++ slash ++ b) = [a, b] := by
  unfold splitPath
  have hdata : (a ++ slash ++ b).data = a.data ++ slashChar :: b.data := by
    rw [String.data_append, String.data_append]
    simp [slash, slashChar]
  rw [hdata, splitChars_append slashChar a.data b.data ha,
    splitChars_no_sep slashChar b.data hb]
  rfl

/-- Parsing a slash-free clue content yields that single component. -/
theorem splitPath_single (t : String) (h : slashChar ∉ t.data) :
    splitPath t = [t] := by
  unfold splitPath
  rw [splitChars_no_sep slashChar t.data h]
  rfl

/-- Resolution of plain names (no "." or "..") appends them. -/
theorem resolveComps_names :
    ∀ (names cur : List String),
      (∀ x ∈ names, ¬ x = "." ∧ ¬ x = "..") →
      resolveComps cur names = cur ++ names := by
  intro names
  induction names with
  | nil => intro cur h; simp [resolveComps]
  | cons x rest ih =>
    intro cur h
    have hx := h x (by simp)
    rw [resolveComps, if_neg hx.1, if_neg hx.2, ih (cur ++ [x])
      (fun y hy => h y (by simp [hy]))]
    simp

/-- Drawn words are members of the word list. -/
theorem chooseWord_mem (wl : List String) (r : Rng) (h : wl ≠ []) :
    (chooseWord wl r).1 ∈ wl := by
  unfold chooseWord
  dsimp only
  rw [List.getD_eq_getElem?_getD,
    List.getElem?_eq_getElem (Nat.mod_lt _ (List.length_pos.mpr h))]
  simp

/-- Drawn filenames have the word-dot-txt shape. -/
theorem random_filename_txt (wl : List String) (r : Rng)
    (h : goodWordList wl) : isTxtName (random_filename wl r).1 :=
  ⟨(chooseWord wl r).1, h.2 _ (chooseWord_mem wl r h.1), rfl⟩

/-- The treasure filename redraw loop preserves the filename shape. -/
theorem distinctFilename_txt (wl : List String) (s : String)
    (h : goodWordList wl) :
    ∀ fuel t0 r, isTxtName t0 →
      isTxtName (distinctFilename wl s fuel t0 r).1 := by
  intro fuel
  induction fuel with
  | zero => intro t0 r ht; exact ht
  | succ k ih =>
    intro t0 r ht
    rw [distinctFilename]
    split_ifs with he
    · exact ih _ _ (random_filename_txt wl r h)
    · exact ht

/-- All golden directory names are usable words. -/
theorem generate_golden_path_good (wl : List String) (h : goodWordList wl) :
    ∀ n r, ∀ d ∈ (generate_golden_path wl n r).1, goodWord d := by
  intro n
  induction n with
  | zero => intro r d hd; simp [generate_golden_path] at hd
  | succ k ih =>
    intro r d hd
    simp only [generate_golden_path, List.mem_cons] at hd
    rcases hd with hd | hd
    · subst hd
      exact h.2 _ (chooseWord_mem wl _ h.1)
    · exact ih _ d hd

/-- All drawn clue filenames have the word-dot-txt shape. -/
theorem drawFilenames_txt (wl : List String) (h : goodWordList wl) :
    ∀ n r, ∀ c ∈ (drawFilenames wl n r).1, isTxtName c := by
  intro n
  induction n with
  | zero => intro r c hc; simp [drawFilenames] at hc
  | succ k ih =>
    intro r c hc
    simp only [drawFilenames, List.mem_cons] at hc
    rcases hc with hc | hc
    · subst hc
      exact random_filename_txt wl r h
    · exact ih _ c hc

/-- The number of drawn clue filenames. -/
theorem drawFilenames_length (wl : List String) :
    ∀ n r, ((drawFilenames wl n r).1).length = n := by
  intro n
  induction n with
  | zero => intro r; rfl
  | succ k ih => intro r; simp [drawFilenames, ih]

/-- A word-dot-txt filename contains no slash. -/
theorem isTxtName_no_slash (c : String) (h : isTxtName c) :
    slashChar ∉ c.data := by
  obtain ⟨w, hw, hc⟩ := h
  subst hc
  rw [String.data_append]
  intro hmem
  rcases List.mem_append.mp hmem with hm | hm
  · exact (hw.2 _ hm).1 rfl
  · simp [txtExt] at hm
    rcases hm with h | h | h | h <;> cases h

/-- A word-dot-txt filename has at least five characters. -/
theorem isTxtName_data_length (c : String) (h : isTxtName c) :
    5 ≤ c.data.length := by
  obtain ⟨w, hw, hc⟩ := h
  subst hc
  rw [String.data_append]
  have h1 : 1 ≤ w.data.length := by
    cases hd : w.data with
    | nil => exact absurd hd hw.1
    | cons a l => simp [hd]
  have h4 : (txtExt.data).length = 4 := by decide
  rw [List.length_append, h4]
  omega

/-- A word-dot-txt filename is not "." or "..". -/
theorem isTxtName_not_dots (c : String) (h : isTxtName c) :
    ¬ c = "." ∧ ¬ c = ".." := by
  have hlen := isTxtName_data_length c h
  constructor <;> intro he <;> subst he <;> simp_all

/-- A usable word is not "." or "..". -/
theorem goodWord_not_dots (d : String) (h : goodWord d) :
    ¬ d = "." ∧ ¬ d = ".." := by
  constructor <;> intro he <;> subst he
  · exact (h.2 dotChar (by decide)).2 rfl
  · exact (h.2 dotChar (by decide)).2 rfl

/-- A word-dot-txt filename differs from the configuration file name,
whose first character is a dot. -/
theorem isTxtName_ne_config (c : String) (h : isTxtName c) :
    ¬ c = configFileName := by
  obtain ⟨w, hw, hc⟩ := h
  subst hc
  intro he
  have hdata := congrArg String.data he
  rw [String.data_append] at hdata
  cases hd : w.data with
  | nil => exact absurd hd hw.1
  | cons ch rest =>
    rw [hd] at hdata
    have hcfg : configFileName.data = dotChar :: "treasure_hunt_config.json".data := by
      decide
    rw [hcfg] at hdata
    injection hdata with h1 h2
    exact (hw.2 ch (by simp [hd])).2 h1

/-- Lookup in an append finds the left table's binding first. -/
theorem lookup_append_left {α β : Type} [BEq α] (l1 l2 : List (α × β))
    (k : α) (v : β) (h : l1.lookup k = some v) :
    (l1 ++ l2).lookup k = some v := by
  induction l1 with
  | nil => simp [List.lookup] at h
  | cons e rest ih =>
    obtain ⟨a, b⟩ := e
    rw [List.cons_append]
    simp only [List.lookup] at h ⊢
    cases hk : (k == a) <;> rw [hk] at h <;> simp_all

/-- Lookup skips a table holding no binding for the key. -/
theorem lookup_append_right {α β : Type} [BEq α] [LawfulBEq α]
    (l1 l2 : List (α × β)) (k : α) (h : ∀ e ∈ l1, ¬ k = e.1) :
    (l1 ++ l2).lookup k = l2.lookup k := by
  induction l1 with
  | nil => rfl
  | cons e rest ih =>
    obtain ⟨a, b⟩ := e
    rw [List.cons_append]
    simp only [List.lookup]
    have hka : (k == a) = false :=
      beq_eq_false_iff_ne.mpr (h (a, b) (by simp))
    rw [hka]
    exact ih (fun e he => h e (by simp [he]))

/-- In a table with distinct keys, lookup returns the stored binding. -/
theorem lookup_of_mem_nodup {α β : Type} [BEq α] [LawfulBEq α]
    (l : List (α × β)) (k : α) (v : β)
    (hnd : (l.map Prod.fst).Nodup) (hm : (k, v) ∈ l) :
    l.lookup k = some v := by
  induction l with
  | nil => cases hm
  | cons e rest ih =>
    obtain ⟨a, b⟩ := e
    have hnd' : (∀ x : β, (a, x) ∉ rest) ∧ (rest.map Prod.fst).Nodup := by
      simpa using hnd
    simp only [List.lookup]
    rcases List.mem_cons.mp hm with he | he
    · injection he with h1 h2
      subst h1
      subst h2
      rw [show (k == k) = true from beq_self_eq_true k]
    · have hka : (k == a) = false := by
        apply beq_eq_false_iff_ne.mpr
        intro hk
        subst hk
        exact hnd'.1 v he
      rw [hka]
      exact ih hnd'.2 he

/-- Appending preserves a known last element. -/
theorem getLast?_cons_of_getLast? {α : Type} (a x : α) (l : List α)
    (h : l.getLast? = some x) : (a :: l).getLast? = some x := by
  cases l with
  | nil => cases h
  | cons b rest =>
    rw [List.getLast?_cons_cons]
    exact h

/-- The keys written by the clue loop are exactly the expected chain
paths. -/
theorem clueLoop_keys (k t : String) :
    ∀ ds cs d c cur, ds.length = cs.length →
      (clueLoop k t (d :: ds) (c :: cs) cur).map Prod.fst =
        chainTail t (d :: ds) (c :: cs) cur := by
  intro ds
  induction ds with
  | nil =>
    intro cs d c cur hlen
    cases cs with
    | nil => rfl
    | cons c2 cs' => simp at hlen
  | cons d2 ds' ih =>
    intro cs d c cur hlen
    cases cs with
    | nil => simp at hlen
    | cons c2 cs' =>
      simp only [clueLoop, chainTail, List.map_cons]
      rw [ih cs' d2 c2 (cur ++ [d]) (by simpa using hlen)]

/-- Every expected chain path is at least two components below the
accumulated prefix. -/
theorem chainTail_length_ge (t : String) :
    ∀ ds cs d c cur, ∀ p ∈ chainTail t (d :: ds) (c :: cs) cur,
      cur.length + 2 ≤ p.length := by
  intro ds
  induction ds with
  | nil =>
    intro cs d c cur p hp
    cases cs with
    | nil =>
      simp only [chainTail, List.mem_cons, List.mem_singleton,
        List.not_mem_nil, or_false] at hp
      rcases hp with hp | hp <;> subst hp <;> simp
    | cons c2 cs' => simp [chainTail] at hp
  | cons d2 ds' ih =>
    intro cs d c cur p hp
    cases cs with
    | nil => simp [chainTail] at hp
    | cons c2 cs' =>
      simp only [chainTail, List.mem_cons] at hp
      rcases hp with hp | hp
      · subst hp
        simp
      · have := ih cs' d2 c2 (cur ++ [d]) p hp
        simp at this
        omega

/-- The expected chain paths are pairwise distinct as long as the last
clue filename differs from the treasure filename. -/
theorem chainTail_nodup (t : String) :
    ∀ ds cs d c cur, ds.length = cs.length →
      ¬ (c :: cs).getLast? = some t →
      (chainTail t (d :: ds) (c :: cs) cur).Nodup := by
  intro ds
  induction ds with
  | nil =>
    intro cs d c cur hlen hlast
    cases cs with
    | nil =>
      simp only [chainTail]
      refine List.nodup_cons.mpr ⟨?_, List.nodup_singleton _⟩
      simp only [List.mem_singleton]
      intro he
      have hct : c = t := by
        have h1 : [d, c] = [d, t] := List.append_cancel_left he
        injection h1 with h2 h3
        injection h3 with h4 h5
      exact hlast (by rw [show ([c] : List String).getLast? = some c from rfl, hct])
    | cons c2 cs' => simp at hlen
  | cons d2 ds' ih =>
    intro cs d c cur hlen hlast
    cases cs with
    | nil => simp at hlen
    | cons c2 cs' =>
      simp only [chainTail]
      refine List.nodup_cons.mpr ⟨?_, ?_⟩
      · intro hmem
        have hge := chainTail_length_ge t ds' cs' d2 c2 (cur ++ [d]) _ hmem
        simp at hge
      · refine ih cs' d2 c2 (cur ++ [d]) (by simpa using hlen) ?_
        rw [List.getLast?_cons_cons] at hlast
        exact hlast

/-- The expected chain ends at the treasure path. -/
theorem chainTail_last (t : String) :
    ∀ ds cs d c cur, ds.length = cs.length →
      (chainTail t (d :: ds) (c :: cs) cur).getLast? =
        some (cur ++ (d :: ds) ++ [t]) := by
  intro ds
  induction ds with
  | nil =>
    intro cs d c cur hlen
    cases cs with
    | nil =>
      simp [chainTail]
    | cons c2 cs' => simp at hlen
  | cons d2 ds' ih =>
    intro cs d c cur hlen
    cases cs with
    | nil => simp at hlen
    | cons c2 cs' =>
      simp only [chainTail]
      rw [getLast?_cons_of_getLast? _ _ _ (ih cs' d2 c2 (cur ++ [d])
        (by simpa using hlen))]
      simp

/-- The expected chain has one entry per golden directory plus the
treasure. -/
theorem chainTail_length (t : String) :
    ∀ ds cs d c cur, ds.length = cs.length →
      (chainTail t (d :: ds) (c :: cs) cur).length = ds.length + 2 := by
  intro ds
  induction ds with
  | nil =>
    intro cs d c cur hlen
    cases cs with
    | nil => rfl
    | cons c2 cs' => simp at hlen
  | cons d2 ds' ih =>
    intro cs d c cur hlen
    cases cs with
    | nil => simp at hlen
    | cons c2 cs' =>
      simp only [chainTail, List.length_cons]
      rw [ih cs' d2 c2 (cur ++ [d]) (by simpa using hlen)]

/-- Dropping the last of a two-extension. -/
theorem dropLast_append_two (cur : List String) (d c : String) :
    (cur ++ [d, c]).dropLast = cur ++ [d] := by
  rw [show cur ++ [d, c] = (cur ++ [d]) ++ [c] from by simp]
  exact List.dropLast_concat

/-- Following the chain from the first clue file of the remaining golden
directories visits exactly the expected chain paths, provided every clue
write can be looked up in the file tree and the last clue filename
differs from the treasure filename. -/
theorem followChain_clueLoop (files : List (List String × String))
    (k t : String) (ht_slash : slashChar ∉ t.data)
    (ht_dots : ¬ t = "." ∧ ¬ t = "..") :
    ∀ ds cs d c cur fuel, ds.length = cs.length →
      (∀ x ∈ ds, goodWord x) →
      (∀ x ∈ cs, isTxtName x) →
      ¬ (c :: cs).getLast? = some t →
      (∀ pv ∈ clueLoop k t (d :: ds) (c :: cs) cur,
        files.lookup pv.1 = some pv.2) →
      ds.length + 2 ≤ fuel →
      followChain files (cur ++ (d :: ds) ++ [t]) fuel (cur ++ [d, c]) =
        chainTail t (d :: ds) (c :: cs) cur := by
  intro ds
  induction ds with
  | nil =>
    intro cs d c cur fuel hlen hds hcs hlast hlook hfuel
    cases cs with
    | cons c2 cs' => simp at hlen
    | nil =>
      obtain ⟨f1, rfl⟩ : ∃ f1, fuel = f1 + 1 := ⟨fuel - 1, by omega⟩
      obtain ⟨f2, rfl⟩ : ∃ f2, f1 = f2 + 1 := ⟨f1 - 1, by omega⟩
      have hct : ¬ c = t := by
        intro hct
        exact hlast (by rw [show ([c] : List String).getLast? = some c from rfl, hct])
      have hne : ¬ (cur ++ [d, c] = cur ++ [d] ++ [t]) := by
        intro h
        rw [List.append_assoc] at h
        have h2 := List.append_cancel_left h
        have h3 : [d, c] = [d, t] := by simpa using h2
        injection h3 with h4 h5
        injection h5 with h6 h7
        exact hct h6
      rw [followChain, if_neg hne,
        hlook (cur ++ [d, c], t) (by simp [clueLoop])]
      dsimp only
      rw [dropLast_append_two, splitPath_single t ht_slash,
        resolveComps_names [t] (cur ++ [d]) (by
          intro x hx
          have hx' : x = t := by simpa using hx
          subst hx'
          exact ht_dots)]
      rw [followChain, if_pos rfl]
      simp [chainTail]
  | cons d2 ds' ih =>
    intro cs d c cur fuel hlen hds hcs hlast hlook hfuel
    cases cs with
    | nil => simp at hlen
    | cons c2 cs' =>
      obtain ⟨f1, rfl⟩ : ∃ f1, fuel = f1 + 1 := ⟨fuel - 1, by omega⟩
      have hd2 : goodWord d2 := hds d2 (by simp)
      have hc2 : isTxtName c2 := hcs c2 (by simp)
      have hne : ¬ (cur ++ [d, c] = cur ++ (d :: d2 :: ds') ++ [t]) := by
        intro h
        have hl := congrArg List.length h
        simp at hl
      rw [followChain, if_neg hne,
        hlook (cur ++ [d, c], d2 ++ slash ++ c2) (by simp [clueLoop])]
      dsimp only
      rw [dropLast_append_two,
        splitPath_pair d2 c2 (fun hm => (hd2.2 _ hm).1 rfl)
          (isTxtName_no_slash c2 hc2),
        resolveComps_names [d2, c2] (cur ++ [d]) (by
          intro x hx
          have hx' : x = d2 ∨ x = c2 := by simpa using hx
          rcases hx' with h | h <;> subst h
          · exact goodWord_not_dots _ hd2
          · exact isTxtName_not_dots _ hc2)]
      have htp : cur ++ (d :: d2 :: ds') ++ [t] =
          (cur ++ [d]) ++ (d2 :: ds') ++ [t] := by simp
      rw [htp]
      have harg : (cur ++ [d]) ++ [d2, c2] = cur ++ [d] ++ [d2, c2] := rfl
      rw [ih cs' d2 c2 (cur ++ [d]) f1 (by simpa using hlen)
        (fun x hx => hds x (by simp [hx]))
        (fun x hx => hcs x (by simp [hx]))
        (by rw [List.getLast?_cons_cons] at hlast; exact hlast)
        (fun pv hpv => hlook pv (by
          simp only [clueLoop, List.mem_cons]
          right
          exact hpv))
        (by simp only [List.length_cons] at hfuel; omega)]
      simp [chainTail]

/-- Following the chain over the full generated write set: later writes
shadow earlier ones, so the clue writes (which come after the tree
writes) are always found, and the configuration file (written last)
never collides with a chain path. -/
theorem followChain_generated (T : List (List String × String))
    (cfgContent : String) (tkey s t g0 c0 : String)
    (grest cs' : List String) (fuel : Nat)
    (hlen : grest.length = cs'.length)
    (hg0 : goodWord g0) (hgrest : ∀ x ∈ grest, goodWord x)
    (hc0 : isTxtName c0) (hcs' : ∀ x ∈ cs', isTxtName x)
    (hs : isTxtName s) (ht : isTxtName t)
    (hlast : ¬ (c0 :: cs').getLast? = some t)
    (hfuel : grest.length + 3 ≤ fuel) :
    followChain
      ((T ++ (([s], g0 ++ slash ++ c0) ::
          clueLoop tkey t (g0 :: grest) (c0 :: cs') []) ++
        [([configFileName], cfgContent)]).reverse)
      ((g0 :: grest) ++ [t]) fuel [s] =
      [s] :: chainTail t (g0 :: grest) (c0 :: cs') [] := by
  have hkeys : ((([s], g0 ++ slash ++ c0) ::
      clueLoop tkey t (g0 :: grest) (c0 :: cs') []).map Prod.fst) =
      [s] :: chainTail t (g0 :: grest) (c0 :: cs') [] := by
    simp only [List.map_cons]
    rw [clueLoop_keys tkey t grest cs' g0 c0 [] hlen]
  have hnodup : ((([s], g0 ++ slash ++ c0) ::
      clueLoop tkey t (g0 :: grest) (c0 :: cs') []).map Prod.fst).Nodup := by
    rw [hkeys]
    refine List.nodup_cons.mpr
      ⟨?_, chainTail_nodup t grest cs' g0 c0 [] hlen hlast⟩
    intro hmem
    have hge := chainTail_length_ge t grest cs' g0 c0 [] _ hmem
    simp at hge
  have hlook : ∀ p v, (p, v) ∈ (([s], g0 ++ slash ++ c0) ::
      clueLoop tkey t (g0 :: grest) (c0 :: cs') []) →
      ((T ++ (([s], g0 ++ slash ++ c0) ::
          clueLoop tkey t (g0 :: grest) (c0 :: cs') []) ++
        [([configFileName], cfgContent)]).reverse).lookup p = some v := by
    intro p v hpv
    have hkey_ne : ¬ p = [configFileName] := by
      have hp1 : p ∈ (([s], g0 ++ slash ++ c0) ::
          clueLoop tkey t (g0 :: grest) (c0 :: cs') []).map Prod.fst :=
        List.mem_map.mpr ⟨(p, v), hpv, rfl⟩
      rw [hkeys] at hp1
      rcases List.mem_cons.mp hp1 with h | h
      · subst h
        intro he
        injection he with h1 h2
        exact isTxtName_ne_config s hs h1
      · intro he
        have hge := chainTail_length_ge t grest cs' g0 c0 [] _ h
        rw [he] at hge
        simp at hge
    have hrev : ((T ++ (([s], g0 ++ slash ++ c0) ::
        clueLoop tkey t (g0 :: grest) (c0 :: cs') []) ++
        [([configFileName], cfgContent)]).reverse) =
        ([configFileName], cfgContent) ::
          ((([s], g0 ++ slash ++ c0) ::
            clueLoop tkey t (g0 :: grest) (c0 :: cs') []).reverse ++
           T.reverse) := by
      simp [List.reverse_append]
    rw [hrev]
    simp only [List.lookup]
    rw [show (p == [configFileName]) = false from
      beq_eq_false_iff_ne.mpr hkey_ne]
    exact lookup_append_left _ _ _ _
      (lookup_of_mem_nodup _ p v
        (by rw [List.map_reverse]; exact List.nodup_reverse.mpr hnodup)
        (List.mem_reverse.mpr hpv))
  obtain ⟨f1, rfl⟩ : ∃ f1, fuel = f1 + 1 := ⟨fuel - 1, by omega⟩
  rw [show ((g0 :: grest) ++ [t] : List String) =
    [] ++ (g0 :: grest) ++ [t] from by simp]
  rw [followChain]
  have hne : ¬ (([s] : List String) = [] ++ (g0 :: grest) ++ [t]) := by
    intro h
    have hl := congrArg List.length h
    simp at hl
  rw [if_neg hne, hlook [s] (g0 ++ slash ++ c0) (List.mem_cons_self _ _)]
  dsimp only
  rw [show ([s] : List String).dropLast = [] from rfl,
    splitPath_pair g0 c0 (fun hm => (hg0.2 _ hm).1 rfl)
      (isTxtName_no_slash c0 hc0),
    resolveComps_names [g0, c0] [] (by
      intro x hx
      have hx' : x = g0 ∨ x = c0 := by simpa using hx
      rcases hx' with h | h <;> subst h
      · exact goodWord_not_dots _ hg0
      · exact isTxtName_not_dots _ hc0)]
  rw [followChain_clueLoop _ tkey t (isTxtName_no_slash t ht)
    (isTxtName_not_dots t ht) grest cs' g0 c0 [] f1 hlen hgrest hcs' hlast
    (fun pv hpv => hlook pv.1 pv.2 (List.mem_cons_of_mem _ hpv))
    (by omega)]

/-- The clue filenames drawn by `_write_clue_files` for a nonempty
golden path: one usable txt name per golden directory. -/
theorem write_clue_files_clue_filenames (wl : List String)
    (hwl : goodWordList wl) (g0 : String) (grest : List String)
    (tkey s t : String) (r : Rng) :
    ∃ c0 cs',
      ((write_clue_files wl (g0 :: grest) tkey s t r).1).clue_filenames =
        c0 :: cs' ∧
      cs'.length = grest.length ∧ isTxtName c0 ∧ ∀ x ∈ cs', isTxtName x := by
  have hlen := drawFilenames_length wl (g0 :: grest).length r
  have htxt := drawFilenames_txt wl hwl (g0 :: grest).length r
  cases hcf : (drawFilenames wl (g0 :: grest).length r).1 with
  | nil =>
    rw [hcf] at hlen
    simp at hlen
  | cons c0 cs' =>
    refine ⟨c0, cs', ?_, ?_, ?_, ?_⟩
    · simp only [write_clue_files]
      exact hcf
    · rw [hcf] at hlen
      simpa using hlen
    · exact htxt c0 (by rw [hcf]; simp)
    · intro x hx
      exact htxt x (by rw [hcf]; simp [hx])

/-- The writes of `_write_clue_files` for a nonempty golden path. -/
theorem write_clue_files_writes_eq (wl : List String)
    (g0 : String) (grest : List String) (tkey s t : String) (r : Rng)
    (c0 : String) (cs' : List String)
    (hcf : ((write_clue_files wl (g0 :: grest) tkey s t r).1).clue_filenames =
      c0 :: cs') :
    ((write_clue_files wl (g0 :: grest) tkey s t r).1).writes =
      ([s], g0 ++ slash ++ c0) ::
        clueLoop tkey t (g0 :: grest) (c0 :: cs') [] := by
  simp only [write_clue_files] at hcf ⊢
  rw [hcf]
  simp

theorem record_chain_core (wl : List String) (hwl : goodWordList wl)
    (tkey s t : String) (g : List String) (r : Rng)
    (T : List (List String × String)) (cfg : String) (fuel : Nat)
    (hs : isTxtName s) (ht : isTxtName t)
    (hg : ∀ x ∈ g, goodWord x) (hgne : g ≠ [])
    (hlast : ¬ (((write_clue_files wl g tkey s t r).1).clue_filenames.getLast?
      = some t))
    (hfuel : g.length + 2 ≤ fuel) :
    followChain ((T ++ ((write_clue_files wl g tkey s t r).1).writes ++
        [([configFileName], cfg)]).reverse)
      (((write_clue_files wl g tkey s t r).1).treasure_path) fuel [s] =
      goldenChainPaths g (((write_clue_files wl g tkey s t r).1).clue_filenames)
        s t ∧
    (followChain ((T ++ ((write_clue_files wl g tkey s t r).1).writes ++
        [([configFileName], cfg)]).reverse)
      (((write_clue_files wl g tkey s t r).1).treasure_path) fuel [s]).length =
      g.length + 2 ∧
    (followChain ((T ++ ((write_clue_files wl g tkey s t r).1).writes ++
        [([configFileName], cfg)]).reverse)
      (((write_clue_files wl g tkey s t r).1).treasure_path) fuel [s]).Nodup ∧
    (followChain ((T ++ ((write_clue_files wl g tkey s t r).1).writes ++
        [([configFileName], cfg)]).reverse)
      (((write_clue_files wl g tkey s t r).1).treasure_path) fuel
        [s]).getLast? =
      some (((write_clue_files wl g tkey s t r).1).treasure_path) := by
  cases g with
  | nil => exact absurd rfl hgne
  | cons g0 grest =>
    obtain ⟨c0, cs', hcf, hlen', hc0, hcs'⟩ :=
      write_clue_files_clue_filenames wl hwl g0 grest tkey s t r
    have hwr := write_clue_files_writes_eq wl g0 grest tkey s t r c0 cs' hcf
    have htp := write_clue_files_treasure_path wl (g0 :: grest) tkey s t r
      (by simp)
    rw [hcf] at hlast ⊢
    rw [hwr, htp]
    have hg0 : goodWord g0 := hg g0 (by simp)
    have hgrest : ∀ x ∈ grest, goodWord x := fun x hx => hg x (by simp [hx])
    have hlen2 : grest.length = cs'.length := hlen'.symm
    simp only [List.length_cons] at hfuel
    rw [followChain_generated T cfg tkey s t g0 c0 grest cs' fuel hlen2 hg0
      hgrest hc0 hcs' hs ht hlast (by omega)]
    refine ⟨rfl, ?_, ?_, ?_⟩
    · simp only [List.length_cons,
        chainTail_length t grest cs' g0 c0 [] hlen2]
    · refine List.nodup_cons.mpr
        ⟨?_, chainTail_nodup t grest cs' g0 c0 [] hlen2 hlast⟩
      intro hmem
      have hge := chainTail_length_ge t grest cs' g0 c0 [] _ hmem
      simp at hge
    · rw [getLast?_cons_of_getLast? _ _ _
        (chainTail_last t grest cs' g0 c0 [] hlen2)]
      simp

/-- C2 amended: for every generated hunt over a usable word list, if the
clue filename drawn for the last golden step differs from the treasure
filename, then starting from the start file and repeatedly reading the
clue content and resolving it as a relative path from the clue's own
directory visits exactly the golden chain: `path_length` hops (the
number of golden directories plus one) ending at the treasure file, and
no file is visited twice. -/
theorem golden_chain_navigable
    (wl : List String) (hashOrder : List String → List String)
    (uf rf : Nat) (depth? b? d? : Option Nat) (seed : Option Nat)
    (diff : String) (rng : Rng) (res : GenResult) (fuel : Nat)
    (hgen : generate_treasure_hunt wl hashOrder uf rf depth? b? d? seed diff
      rng = some res)
    (hwl : goodWordList wl)
    (hlast : ¬ res.clue_filenames.getLast? = some res.treasure_name)
    (hfuel : res.path_length + 1 ≤ fuel) :
    followChain (resultFiles res) res.treasure_path fuel [res.start_file] =
      goldenChainPaths res.golden_path res.clue_filenames res.start_file
        res.treasure_name ∧
    (followChain (resultFiles res) res.treasure_path fuel
      [res.start_file]).length = res.path_length + 1 ∧
    (followChain (resultFiles res) res.treasure_path fuel
      [res.start_file]).Nodup ∧
    (followChain (resultFiles res) res.treasure_path fuel
      [res.start_file]).getLast? = some res.treasure_path := by
  simp only [generate_treasure_hunt] at hgen
  split at hgen
  · cases hgen
  · rename_i pl heq
    have hb := randint_bounds _ _ _ _ heq
    have h2 : 2 ≤ pl.1 := le_trans (Nat.le_max_left 2 _) hb.1
    injection hgen with hres
    subst hres
    simp only [resultFiles] at hlast hfuel ⊢
    replace hfuel : pl.1 + 1 + 1 ≤ fuel := hfuel
    have hglen := generate_golden_path_length wl pl.1 pl.2
    have hgood := generate_golden_path_good wl hwl pl.1 pl.2
    have hne : (generate_golden_path wl pl.1 pl.2).1 ≠ [] := by
      intro h
      rw [h] at hglen
      simp at hglen
      omega
    obtain ⟨h1, hl2, h3, h4⟩ := record_chain_core wl hwl _ _ _ _ _ _ _ fuel
      (random_filename_txt wl _ hwl)
      (distinctFilename_txt wl _ hwl rf _ _ (random_filename_txt wl _ hwl))
      hgood hne hlast (by omega)
    exact ⟨h1, by rw [hl2, hglen], h3, h4⟩

/-- Witness for `golden_chain_navigable`: the concrete seeded generation
run `wRes` (seed 5, depth 3) draws a final clue filename differing from
the treasure filename, and its clue chain visits exactly the golden
chain — 3 hops ending at the treasure file, with no repeat. -/
theorem golden_chain_navigable_witness :
    followChain (resultFiles wRes) wRes.treasure_path 10 [wRes.start_file] =
      goldenChainPaths wRes.golden_path wRes.clue_filenames wRes.start_file
        wRes.treasure_name ∧
    (followChain (resultFiles wRes) wRes.treasure_path 10
      [wRes.start_file]).length = wRes.path_length + 1 ∧
    (followChain (resultFiles wRes) wRes.treasure_path 10
      [wRes.start_file]).Nodup ∧
    (followChain (resultFiles wRes) wRes.treasure_path 10
      [wRes.start_file]).getLast? = some wRes.treasure_path :=
  golden_chain_navigable cexWl id 50 8 (some 3) (some 1) (some 300000)
    (some 5) diffMedium cexRng wRes 10 (by decide)
    (by simp only [goodWordList, goodWord]; decide) (by decide) (by decide)

/-- C2 counterexample: an unseeded generation over the engineered
ambient stream `cexStream` (branching 0, density 0, depth 3, two-word
dictionary) draws the treasure filename again as the final clue
filename; following the clue chain from the start file then reaches the
treasure file after 2 hops, although the reported `path_length` is 3 —
the chain does not take exactly `path_length` hops. -/
theorem chain_shortcut_counterexample :
    ((generate_treasure_hunt cexWl id 50 8 (some 3) (some 0) (some 0) none
        diffMedium cexRng).map fun r =>
      ((followChain (resultFiles r) r.treasure_path 10
          [r.start_file]).length - 1,
       r.path_length,
       (followChain (resultFiles r) r.treasure_path 10
          [r.start_file]).getLast? == some r.treasure_path)) =
      some (2, 3, true) ∧ (2 : Nat) ≠ 3 := by
  exact ⟨by decide, by decide⟩

end TreasureHuntAgent
